import Mathlib

/-!
Shallow embedding of the particle animation engine in `src/animate-image.ts`
(the latest implementation variant) together with proofs about it.

Modelling conventions:
* JS numbers are modelled as exact rationals (`ℚ`); the source only uses
  `+ - * /`, `min`, `max`, `Math.floor` and `Math.round` on the paths the
  verified properties touch, all of which are exact on `ℚ`.
* The host math intrinsics `Math.sqrt`, the `**` operator, `Math.sin` and
  `Math.PI` (used only inside the elastic easings and the pointer-physics
  branch of `Point.update`) are kept abstract in an `Env` record: every
  theorem below is proved for an arbitrary `Env`, because no verified
  property depends on their values.
* `Math.round x` is `⌊x + 1/2⌋` (JS rounds half toward +∞);
  `Uint8ClampedArray` stores `max 0 (min 255 ·)` of an integer.
* Strings are Lean `String`s; the two color regexes are implemented as
  character-level matchers with the same (deterministic) semantics.
-/

namespace AnimateImage

/-- Host math intrinsics (Math.sqrt, the ** operator, Math.sin, Math.PI) and
the host's number-to-string rendering, abstracted: the verified properties
never depend on their values, so every theorem quantifies over `Env`. -/
structure Env where
  sqrt : ℚ → ℚ
  pow : ℚ → ℚ → ℚ
  sin : ℚ → ℚ
  pi : ℚ
  numToStr : ℚ → String

/-- A concrete environment used only to instantiate theorems at concrete
inputs (no verified statement depends on its values). -/
def zeroEnv : Env :=
  { sqrt := fun _ => 0, pow := fun _ _ => 0, sin := fun _ => 0, pi := 0,
    numToStr := fun _ => "" }

/-- Source `clamp(n, min, max) = Math.max(min, Math.min(max, n))`. -/
def clampQ (n lo hi : ℚ) : ℚ := max lo (min hi n)

/-- Source `clamp01` (the NaN branch cannot arise on exact rationals). -/
def clamp01Q (n : ℚ) : ℚ := max 0 (min 1 n)

/-- JS `Math.round`: round half toward positive infinity. -/
def jsRound (q : ℚ) : ℤ := ⌊q + 1 / 2⌋

/-- Storage semantics of `Uint8ClampedArray` for an integer value. -/
def clampByte (n : ℤ) : ℕ := (max 0 (min 255 n)).toNat

/-! ### Easing library (`Point` easing methods, source lines 848-913) -/

def linear (t : ℚ) : ℚ := t

def easeInQuad (t : ℚ) : ℚ := t * t

def easeOutQuad (t : ℚ) : ℚ := t * (2 - t)

def easeInOutQuad (t : ℚ) : ℚ :=
  if t < 0.5 then 2 * t * t else -1 + (4 - 2 * t) * t

def easeInCubic (t : ℚ) : ℚ := t * t * t

/-- Source `(--t) * t * t + 1`: the pre-decrement makes this `(t-1)^3 + 1`. -/
def easeOutCubic (t : ℚ) : ℚ :=
  let t1 := t - 1
  t1 * t1 * t1 + 1

def easeInOutCubic (t : ℚ) : ℚ :=
  if t < 0.5 then 4 * t * t * t else 1 - (-2 * t + 2) ^ 3 / 2

def easeInElastic (E : Env) (t : ℚ) : ℚ :=
  if t = 0 then 0
  else if t = 1 then 1
  else -(E.pow 2 (10 * t - 10)) * E.sin ((t * 10 - 10.75) * (2 * E.pi / 3))

def easeOutElastic (E : Env) (t : ℚ) : ℚ :=
  if t = 0 then 0
  else if t = 1 then 1
  else E.pow 2 (-10 * t) * E.sin ((t * 10 - 0.75) * (2 * E.pi / 3)) + 1

def easeInOutElastic (E : Env) (t : ℚ) : ℚ :=
  if t = 0 then 0
  else if t = 1 then 1
  else if t < 0.5 then
    -(E.pow 2 (20 * t - 10) * E.sin ((20 * t - 11.125) * (2 * E.pi / 4.5))) / 2
  else
    E.pow 2 (-20 * t + 10) * E.sin ((20 * t - 11.125) * (2 * E.pi / 4.5)) / 2 + 1

def easeOutBounce (t : ℚ) : ℚ :=
  if t < 1 / 2.75 then 7.5625 * t * t
  else if t < 2 / 2.75 then
    let t1 := t - 1.5 / 2.75
    7.5625 * t1 * t1 + 0.75
  else if t < 2.5 / 2.75 then
    let t1 := t - 2.25 / 2.75
    7.5625 * t1 * t1 + 0.9375
  else
    let t1 := t - 2.625 / 2.75
    7.5625 * t1 * t1 + 0.984375

def easeInBounce (t : ℚ) : ℚ := 1 - easeOutBounce (1 - t)

def easeInOutBounce (t : ℚ) : ℚ :=
  if t < 0.5 then (1 - easeOutBounce (1 - 2 * t)) / 2
  else (1 + easeOutBounce (2 * t - 1)) / 2

/-- The `Easing` option: a name (the runtime switches on the string) or a
caller-supplied custom function used verbatim. -/
inductive Easing where
  | named : String → Easing
  | custom : (ℚ → ℚ) → Easing

/-- Source `Point.applyEasing` (lines 718-742): dispatch on the easing name,
any unrecognized name falling back to `easeInOutCubic`; a function value is
applied verbatim. -/
def applyEasing (E : Env) (e : Easing) (t : ℚ) : ℚ :=
  match e with
  | .custom f => f t
  | .named n =>
    if n = "linear" then linear t
    else if n = "ease" then easeInOutCubic t
    else if n = "ease-in-out" then easeInOutCubic t
    else if n = "ease-in" then easeInCubic t
    else if n = "ease-out" then easeOutCubic t
    else if n = "easeInQuad" then easeInQuad t
    else if n = "easeOutQuad" then easeOutQuad t
    else if n = "easeInOutQuad" then easeInOutQuad t
    else if n = "easeInCubic" then easeInCubic t
    else if n = "easeOutCubic" then easeOutCubic t
    else if n = "easeInOutCubic" then easeInOutCubic t
    else if n = "easeInElastic" then easeInElastic E t
    else if n = "easeOutElastic" then easeOutElastic E t
    else if n = "easeInOutElastic" then easeInOutElastic E t
    else if n = "easeInBounce" then easeInBounce t
    else if n = "easeOutBounce" then easeOutBounce t
    else if n = "easeInOutBounce" then easeInOutBounce t
    else easeInOutCubic t

/-- The names the `applyEasing` switch recognizes (the registry). -/
def easingNames : List String :=
  ["linear", "ease", "ease-in-out", "ease-in", "ease-out",
   "easeInQuad", "easeOutQuad", "easeInOutQuad",
   "easeInCubic", "easeOutCubic", "easeInOutCubic",
   "easeInElastic", "easeOutElastic", "easeInOutElastic",
   "easeInBounce", "easeOutBounce", "easeInOutBounce"]

/-! ### Color codec (`Point.__parseColorToTyped`, lines 953-976, and the
numeric core of `Point.interpolateColor`, lines 916-940) -/

/-- Whitespace for `String.trim` and the regex class `\s`. -/
def isWsChar (c : Char) : Bool := c == ' ' || c == '\t' || c == '\n' || c == '\r'

/-- JS `String.prototype.trim` on a character list. -/
def jsTrim (l : List Char) : List Char :=
  ((l.dropWhile isWsChar).reverse.dropWhile isWsChar).reverse

/-- The regex class `[0-9a-f]` with the `i` flag. -/
def isHexChar (c : Char) : Bool :=
  c.isDigit || (decide ('a' ≤ c) && decide (c ≤ 'f'))
    || (decide ('A' ≤ c) && decide (c ≤ 'F'))

/-- Value of one hex digit. -/
def hexVal (c : Char) : ℕ :=
  if c.isDigit then c.toNat - '0'.toNat
  else if 'a' ≤ c ∧ c ≤ 'f' then c.toNat - 'a'.toNat + 10
  else if 'A' ≤ c ∧ c ≤ 'F' then c.toNat - 'A'.toNat + 10
  else 0

/-- The anchored hex regex `^#([0-9a-f]{3}|[0-9a-f]{6})$` (case-insensitive)
applied to the trimmed input: returns the captured digit group. -/
def hexMatch (s : String) : Option (List Char) :=
  match jsTrim s.data with
  | '#' :: rest =>
    if (rest.length == 3 || rest.length == 6) && rest.all isHexChar then some rest
    else none
  | _ => none

/-- Value of `parseInt(d1 ++ d2, 16)` for a two-hex-digit pair. -/
def hexByte (l : List Char) : ℕ :=
  match l with
  | [c1, c2] => 16 * hexVal c1 + hexVal c2
  | _ => 0

/-- The hex branch of `__parseColorToTyped`: a 3-digit group duplicates each
digit, a 6-digit group is consumed in pairs. -/
def hexBytes (h : List Char) : ℕ × ℕ × ℕ :=
  match h with
  | [a, b, c] => (hexByte [a, a], hexByte [b, b], hexByte [c, c])
  | [a, b, c, d, e, f] => (hexByte [a, b], hexByte [c, d], hexByte [e, f])
  | _ => (0, 0, 0)

/-- Value of `parseInt(s, 10)` on a nonempty digit string. -/
def decVal (l : List Char) : ℕ :=
  l.foldl (fun acc c => 10 * acc + (c.toNat - '0'.toNat)) 0

/-- JS `parseFloat` restricted to strings of the class `[.\d]+` (the only
strings the rgba regex can hand it): a digit run, optionally a dot and a
second digit run, everything after a second dot ignored; `none` models `NaN`
(no leading digits and no fractional digits). -/
def jsParseFloat (l : List Char) : Option ℚ :=
  let ip := l.takeWhile (fun c => c.isDigit)
  let rest := l.dropWhile (fun c => c.isDigit)
  match rest with
  | '.' :: r2 =>
    let fp := r2.takeWhile (fun c => c.isDigit)
    if ip.isEmpty && fp.isEmpty then none
    else some ((decVal ip : ℚ) + (decVal fp : ℚ) / (10 : ℚ) ^ fp.length)
  | _ => if ip.isEmpty then none else some ((decVal ip : ℚ))

/-- One attempt of the unanchored regex
`rgba?\((\d+),\s*(\d+),\s*(\d+)(?:,\s*([.\d]+))?\)` at the head of the
input. The pattern is deterministic (each `+` class is disjoint from the
character that follows it), so greedy matching without backtracking is
exact. Returns the three decimal groups and the optional alpha group. -/
def matchRgbaAt (l : List Char) : Option (ℕ × ℕ × ℕ × Option (List Char)) :=
  match l with
  | 'r' :: 'g' :: 'b' :: rest =>
    let afterParen : Option (List Char) :=
      match rest with
      | 'a' :: '(' :: r => some r
      | '(' :: r => some r
      | _ => none
    match afterParen with
    | none => none
    | some r =>
      let d1 := r.takeWhile (fun c => c.isDigit)
      let r1 := r.dropWhile (fun c => c.isDigit)
      if d1.isEmpty then none else
      match r1 with
      | ',' :: r1b =>
        let r1c := r1b.dropWhile isWsChar
        let d2 := r1c.takeWhile (fun c => c.isDigit)
        let r2 := r1c.dropWhile (fun c => c.isDigit)
        if d2.isEmpty then none else
        match r2 with
        | ',' :: r2b =>
          let r2c := r2b.dropWhile isWsChar
          let d3 := r2c.takeWhile (fun c => c.isDigit)
          let r3 := r2c.dropWhile (fun c => c.isDigit)
          if d3.isEmpty then none else
          match r3 with
          | ')' :: _ => some (decVal d1, decVal d2, decVal d3, none)
          | ',' :: r3b =>
            let r3c := r3b.dropWhile isWsChar
            let d4 := r3c.takeWhile (fun c => c.isDigit || c == '.')
            let r4 := r3c.dropWhile (fun c => c.isDigit || c == '.')
            if d4.isEmpty then none else
            match r4 with
            | ')' :: _ => some (decVal d1, decVal d2, decVal d3, some d4)
            | _ => none
          | _ => none
        | _ => none
      | _ => none
  | _ => none

/-- Unanchored (leftmost) search of the rgba regex over the input. -/
def rgbaSearch : List Char → Option (ℕ × ℕ × ℕ × Option (List Char))
  | [] => none
  | c :: rest =>
    match matchRgbaAt (c :: rest) with
    | some m => some m
    | none => rgbaSearch rest

/-- Source `Point.__parseColorToTyped` (lines 953-976): hex first, then the
rgba regex, else opaque white. The result models the `Uint8ClampedArray`
`[r, g, b, a]` (alpha on the 0-255 scale); a `NaN` alpha (unparseable float)
is stored as 0 by the typed array. -/
def parseColorToTyped (s : String) : ℕ × ℕ × ℕ × ℕ :=
  match hexMatch s with
  | some h =>
    let (r, g, b) := hexBytes h
    (r, g, b, 255)
  | none =>
    match rgbaSearch s.data with
    | none => (255, 255, 255, 255)
    | some (r, g, b, oa) =>
      let a : ℕ :=
        match oa with
        | none => clampByte (jsRound ((1 : ℚ) * 255))
        | some d4 =>
          match jsParseFloat d4 with
          | some v => clampByte (jsRound (v * 255))
          | none => 0
      (clampByte (r : ℤ), clampByte (g : ℤ), clampByte (b : ℤ), a)

/-- Numeric core of `Point.interpolateColor` (lines 916-940): the four
channel values embedded in the emitted `rgba(r, g, b, a)` string — r, g, b
as rounded integers and the alpha as the exact value `aInt / 255` the
template literal renders. The per-particle parse cache of the source is
value-transparent (it only avoids re-running the regex on an unchanged
string), so the model recomputes the parses. -/
def interpolateColorRGBA (initialColor targetColor : String) (progress : ℚ) :
    ℤ × ℤ × ℤ × ℚ :=
  let pc1 := parseColorToTyped initialColor
  let pc2 := parseColorToTyped targetColor
  let r1 : ℚ := pc1.1
  let g1 : ℚ := pc1.2.1
  let b1 : ℚ := pc1.2.2.1
  let a1 : ℚ := pc1.2.2.2
  let r2 : ℚ := pc2.1
  let g2 : ℚ := pc2.2.1
  let b2 : ℚ := pc2.2.2.1
  let a2 : ℚ := pc2.2.2.2
  let r := jsRound (r1 + (r2 - r1) * progress)
  let g := jsRound (g1 + (g2 - g1) * progress)
  let b := jsRound (b1 + (b2 - b1) * progress)
  let aInt := jsRound (a1 + (a2 - a1) * progress)
  (r, g, b, (aInt : ℚ) / 255)

/-- Source `Point.interpolateColor`: the emitted string, with the host's
number rendering abstracted through `Env.numToStr`. -/
def interpolateColor (E : Env) (initialColor targetColor : String)
    (progress : ℚ) : String :=
  let (r, g, b, a) := interpolateColorRGBA initialColor targetColor progress
  "rgba(" ++ E.numToStr r ++ ", " ++ E.numToStr g ++ ", " ++ E.numToStr b
    ++ ", " ++ E.numToStr a ++ ")"

/-! ### Particle (`Point`, source lines 598-1040)

The `canvas`/`ctx` handles are host objects and are not part of the state the
verified properties touch. `Math.random() * canvas.width` draws are passed in
as explicit arguments (`rx`, `ry`). Object identity is modelled by an `id`
field, which construction sets and `reset` never touches. -/

/-- Source `PointOption` (lines 598-612), without the host `canvas`/`ctx`. -/
structure PointOption where
  size : ℚ
  shape : String
  jitter : ℚ
  w : ℚ
  h : ℚ
  x : Option ℚ := none
  y : Option ℚ := none
  fillStyle : Option String := none
  initialFillStyle : Option String := none
  easing : Option Easing := none
  animationDuration : Option ℚ := none

/-- Mutable particle state (class `Point` fields, lines 613-642). The cached
parsed-color fields are value-transparent caches and are not modelled. -/
structure Point where
  id : ℕ
  offsetX : ℚ
  offsetY : ℚ
  x : ℚ
  y : ℚ
  baseX : ℚ
  baseY : ℚ
  ox : ℚ
  oy : ℚ
  vx : ℚ
  vy : ℚ
  lastUpdateTime : ℚ
  w : ℚ
  h : ℚ
  size : ℚ
  spx : ℚ
  spy : ℚ
  completed : Bool
  fillStyle : String
  initialFillStyle : String
  startX : ℚ
  startY : ℚ
  startTime : ℚ
  animationDuration : ℚ
  easing : Easing
  shape : String
  jitter : ℚ
  progress : ℚ

/-- JS `a || b` on an optional string: an absent or empty string is falsy. -/
def jsOrString (o : Option String) (d : String) : String :=
  match o with
  | some s => if s = "" then d else s
  | none => d

/-- JS `options.easing || d`: absent, or the (unrecognizable) empty-string
name, falls back; a function value is always truthy. -/
def jsOrEasing (o : Option Easing) (d : Easing) : Easing :=
  match o with
  | some (.named s) => if s = "" then d else .named s
  | some (.custom f) => .custom f
  | none => d

/-- The `animationDuration` guard shared by the constructor and `reset`
(lines 665-666 and 700-701): a supplied duration is applied only when it is
a number greater than 0, otherwise the previous value is kept. -/
def durationOf (o : Option ℚ) (keep : ℚ) : ℚ :=
  match o with
  | some d => if 0 < d then d else keep
  | none => keep

/-- Source `Point` constructor (lines 644-680). `col` is the module-wide
current color, `now` is `performance.now()`, `rx`/`ry` are the
`Math.random() * canvas.{width,height}` draws used when no explicit start is
supplied, `fresh` is the identity of the newly allocated object. -/
def mkPoint (col : String) (now rx ry : ℚ) (fresh : ℕ) (o : PointOption) : Point :=
  let x := o.x.getD rx
  let y := o.y.getD ry
  { id := fresh
    x := x
    y := y
    size := o.size
    w := o.w
    h := o.h
    offsetX := (o.w - x) / 2 / 20
    spx := (o.w - x) / 2 / 20
    offsetY := (o.h - y) / 2 / 20
    spy := (o.h - y) / 2 / 20
    fillStyle := jsOrString o.fillStyle col
    initialFillStyle := jsOrString o.initialFillStyle col
    completed := false
    startX := x
    startY := y
    startTime := now
    lastUpdateTime := now
    shape := o.shape
    jitter := o.jitter
    easing := jsOrEasing o.easing (.named "easeInOutCubic")
    animationDuration := durationOf o.animationDuration 1000
    progress := 0
    baseX := x
    baseY := y
    ox := 0
    oy := 0
    vx := 0
    vy := 0 }

/-- Source `Point.reset` (lines 682-715): identical to the constructor
except that object identity (`id`) and — absent a positive supplied
duration — the current `animationDuration` are kept. -/
def Point.reset (p : Point) (col : String) (now rx ry : ℚ) (o : PointOption) : Point :=
  let x := o.x.getD rx
  let y := o.y.getD ry
  { p with
    x := x
    y := y
    w := o.w
    h := o.h
    offsetX := (o.w - x) / 2 / 20
    spx := (o.w - x) / 2 / 20
    offsetY := (o.h - y) / 2 / 20
    spy := (o.h - y) / 2 / 20
    fillStyle := jsOrString o.fillStyle col
    initialFillStyle := jsOrString o.initialFillStyle col
    completed := false
    startX := x
    startY := y
    startTime := now
    lastUpdateTime := now
    shape := o.shape
    jitter := o.jitter
    easing := jsOrEasing o.easing (.named "easeInOutCubic")
    animationDuration := durationOf o.animationDuration p.animationDuration
    progress := 0
    baseX := x
    baseY := y
    ox := 0
    oy := 0
    vx := 0
    vy := 0 }

/-- One-frame burst descriptor inside an interaction frame. -/
structure BurstFrame where
  x : ℚ
  y : ℚ
  radius : ℚ
  strength : ℚ

/-- The per-frame interaction snapshot handed to `Point.update`. -/
structure InteractionFrame where
  active : Bool
  x : ℚ
  y : ℚ
  mode : String
  radius : ℚ
  strength : ℚ
  damping : ℚ
  spring : ℚ
  burst : Option BurstFrame

/-- Source `Point.update` (lines 745-845). Progress is `Math.min(1, elapsed /
animationDuration)` — clamped above only — then shaped by the easing;
`completed` is `progress >= 0.999`. Without an active interaction frame the
physics offset and velocity are zeroed; otherwise one semi-implicit Euler
step runs, with `Math.sqrt` and `**` taken from `Env`. -/
def Point.update (p : Point) (E : Env) (currentTime : ℚ)
    (interaction : Option InteractionFrame) : Point :=
  let elapsed := currentTime - p.startTime
  let progress0 := min 1 (elapsed / p.animationDuration)
  let progress := applyEasing E p.easing progress0
  let baseX := p.startX + (p.w - p.startX) * progress
  let baseY := p.startY + (p.h - p.startY) * progress
  let completed := decide (progress ≥ (0.999 : ℚ))
  let dtMs := clampQ (currentTime - p.lastUpdateTime) 0 50
  let dt := dtMs / 1000
  let p1 := { p with baseX := baseX, baseY := baseY, completed := completed,
                     progress := progress, lastUpdateTime := currentTime }
  match interaction with
  | none => { p1 with ox := 0, oy := 0, vx := 0, vy := 0, x := baseX, y := baseY }
  | some it =>
    if !it.active then
      { p1 with ox := 0, oy := 0, vx := 0, vy := 0, x := baseX, y := baseY }
    else
      let cx := baseX + p.ox
      let cy := baseY + p.oy
      let dx := cx - it.x
      let dy := cy - it.y
      let distSq := dx * dx + dy * dy
      let r := max 1 it.radius
      let rSq := r * r
      let axy : ℚ × ℚ :=
        if distSq > 0.0001 ∧ distSq ≤ rSq then
          let dist := E.sqrt distSq
          let nx := dx / dist
          let ny := dy / dist
          let t := 1 - dist / r
          let s := it.strength * t
          if it.mode = "attract" then (-(nx * s), -(ny * s))
          else if it.mode = "vortex" then (-ny * s, nx * s)
          else (nx * s, ny * s)
        else (0, 0)
      let vxy : ℚ × ℚ :=
        match it.burst with
        | some b =>
          let bdx := cx - b.x
          let bdy := cy - b.y
          let bDistSq := bdx * bdx + bdy * bdy
          let br := max 1 b.radius
          let brSq := br * br
          if bDistSq > 0.0001 ∧ bDistSq ≤ brSq then
            let bDist := E.sqrt bDistSq
            let impulse := b.strength * (1 - bDist / br)
            (p.vx + bdx / bDist * impulse, p.vy + bdy / bDist * impulse)
          else (p.vx, p.vy)
        | none => (p.vx, p.vy)
      let ax := axy.1 + -p.ox * it.spring
      let ay := axy.2 + -p.oy * it.spring
      let vx1 := vxy.1 + ax * dt
      let vy1 := vxy.2 + ay * dt
      let damp := E.pow it.damping (dt * 60)
      let vx2 := vx1 * damp
      let vy2 := vy1 * damp
      let ox1 := p.ox + vx2 * dt
      let oy1 := p.oy + vy2 * dt
      let maxOffset := max 10 (r * 1.5)
      let ox2 := clampQ ox1 (-maxOffset) maxOffset
      let oy2 := clampQ oy1 (-maxOffset) maxOffset
      { p1 with vx := vx2, vy := vy2, ox := ox2, oy := oy2,
                x := baseX + ox2, y := baseY + oy2 }

/-! ### Particle pool (lines 49-60 and 267-273) -/

/-- Source `DEFAULT_MAX_POOL_SIZE`. -/
def DEFAULT_MAX_POOL_SIZE : ℕ := 200000

/-- Source `recyclePoints` (lines 267-273): push each retired particle while
the pool is below capacity, dropping the overflow (the caller's own list is
cleared, which the functional model expresses by the caller discarding it).
The pool is a stack whose top is the end of the list. -/
def recyclePoints (pool : List Point) (points : List Point) : List Point :=
  points.foldl
    (fun pl p => if pl.length < DEFAULT_MAX_POOL_SIZE then pl ++ [p] else pl) pool

/-- Source `getPointFromPool` (lines 53-60): pop and `reset` when the pool is
non-empty, else construct a fresh particle. Returns the particle and the new
pool state. -/
def getPointFromPool (col : String) (now rx ry : ℚ) (fresh : ℕ)
    (o : PointOption) (pool : List Point) : Point × List Point :=
  match pool.getLast? with
  | some p => (p.reset col now rx ry o, pool.dropLast)
  | none => (mkPoint col now rx ry fresh o, pool)

/-! ### Spatial point index (`buildPointGrid`, source lines 367-424)

The JS `Map<string, Point[]>` keyed by `"gx,gy"` is modelled as an
association list keyed by the integer pair, in insertion order (JS `Map`
iteration order). The structure is polymorphic in the particle type, with
the two coordinate projections passed explicitly (the source reads only
`p.x` and `p.y`); the engine instantiates it at `Point`. -/

/-- The bucket key of a position: `Math.floor(x / cellSize)` on each axis. -/
def cellOf (cell x y : ℚ) : ℤ × ℤ := (⌊x / cell⌋, ⌊y / cell⌋)

/-- A uniform-grid bucket index: association list in insertion order. -/
abbrev PGrid (α : Type) := List ((ℤ × ℤ) × List α)

/-- Insert a particle into the bucket of key `k`, pushing onto the existing
bucket or appending a new entry (JS `Map.set` on a missing key appends). -/
def gridInsert {α : Type} (k : ℤ × ℤ) (p : α) : PGrid α → PGrid α
  | [] => [(k, [p])]
  | (k0, b) :: rest =>
    if k0 = k then (k0, b ++ [p]) :: rest else (k0, b) :: gridInsert k p rest

/-- Source `buildPointGrid` construction loop (lines 371-378). -/
def buildPointGrid {α : Type} (px py : α → ℚ) (cell : ℚ) (ps : List α) : PGrid α :=
  ps.foldl (fun g p => gridInsert (cellOf cell (px p) (py p)) p g) []

/-- Bucket lookup (`grid.get`): first entry with the key, else empty. -/
def gridGet {α : Type} : PGrid α → ℤ × ℤ → List α
  | [], _ => []
  | (k0, b) :: rest, k => if k0 = k then b else gridGet rest k

/-- All indexed particles, in bucket order (`grid.values()` flattened). -/
def gridElems {α : Type} (g : PGrid α) : List α := (g.map (fun e => e.2)).flatten

/-- Squared Euclidean distance used by the scan (lines 396-398). -/
def dist2 {α : Type} (px py : α → ℚ) (x y : ℚ) (p : α) : ℚ :=
  (px p - x) * (px p - x) + (py p - y) * (py p - y)

/-- The nine bucket keys scanned by `takeClosest`, in loop order
(`dx` outer from -1 to 1, `dy` inner). -/
def nbhd (gx gy : ℤ) : List (ℤ × ℤ) :=
  ([-1, 0, 1] : List ℤ).flatMap fun dx =>
    ([-1, 0, 1] : List ℤ).map fun dy => (gx + dx, gy + dy)

/-- Pair each bucket element with its index (for the `splice` removal). -/
def withIdx {α : Type} : List α → ℕ → List (ℕ × α)
  | [], _ => []
  | a :: l, n => (n, a) :: withIdx l (n + 1)

/-- The candidate stream of the nested scan loops (lines 389-407): every
element of every neighborhood bucket, tagged with its bucket key and its
index inside the bucket, in scan order. -/
def scanCands {α : Type} (g : PGrid α) (gx gy : ℤ) : List ((ℤ × ℤ) × ℕ × α) :=
  (nbhd gx gy).flatMap fun k => (withIdx (gridGet g k) 0).map fun ia => (k, ia.1, ia.2)

/-- One step of the best-candidate selection: `bestDist` starts at Infinity
(modelled by the `none` accumulator) and is replaced only on a strictly
smaller squared distance, so the first candidate attaining the minimum
wins. -/
def pickStep {α : Type} (px py : α → ℚ) (x y : ℚ)
    (best : Option (ℚ × (ℤ × ℤ) × ℕ × α)) (c : (ℤ × ℤ) × ℕ × α) :
    Option (ℚ × (ℤ × ℤ) × ℕ × α) :=
  match best with
  | none => some (dist2 px py x y c.2.2, c)
  | some b => if dist2 px py x y c.2.2 < b.1 then some (dist2 px py x y c.2.2, c) else some b

/-- Remove index `i` from the bucket of key `k` (`bestBucket.splice(i, 1)`). -/
def gridRemoveAt {α : Type} (g : PGrid α) (k : ℤ × ℤ) (i : ℕ) : PGrid α :=
  g.map fun e => if e.1 = k then (e.1, e.2.eraseIdx i) else e

/-- Source `takeClosest` (lines 380-413): scan the 3x3 bucket neighborhood of
the query's cell for the particle of minimal squared distance, remove it from
its bucket and return it; `none` when every neighborhood bucket is empty. -/
def takeClosest {α : Type} (px py : α → ℚ) (cell : ℚ) (g : PGrid α) (x y : ℚ) :
    Option α × PGrid α :=
  let gx := ⌊x / cell⌋
  let gy := ⌊y / cell⌋
  match (scanCands g gx gy).foldl (pickStep px py x y) none with
  | none => (none, g)
  | some (_, k, i, p) => (some p, gridRemoveAt g k i)

/-- Source `drainRemaining` (lines 415-421): every remaining particle, in
bucket order, together with the cleared grid. -/
def drainRemaining {α : Type} (g : PGrid α) : List α × PGrid α := (gridElems g, [])

/-! ### Image transform (`resolveAlign` and `computeImageTransform`,
source lines 62-100) -/

/-- Source `resolveAlign`: `end` keeps the whole remainder, `center` half of
it, `start` (and an absent alignment) none of it. -/
def resolveAlign (align : Option String) (remaining : ℚ) : ℚ :=
  if align = some "end" then remaining
  else if align = some "center" then remaining / 2
  else 0

structure ImageTransform where
  scaleX : ℚ
  scaleY : ℚ
  offsetX : ℚ
  offsetY : ℚ
deriving DecidableEq

/-- Source `computeImageTransform` (lines 71-100). -/
def computeImageTransform (imgW imgH canvasW canvasH : ℚ) (fit : String)
    (alignX alignY : Option String) : ImageTransform :=
  let sxy : ℚ × ℚ :=
    if fit = "stretch" then (canvasW / imgW, canvasH / imgH)
    else if fit = "contain" ∨ fit = "cover" then
      let s := if fit = "contain" then min (canvasW / imgW) (canvasH / imgH)
               else max (canvasW / imgW) (canvasH / imgH)
      (s, s)
    else (1, 1)
  let drawW := imgW * sxy.1
  let drawH := imgH * sxy.2
  { scaleX := sxy.1
    scaleY := sxy.2
    offsetX := resolveAlign alignX (canvasW - drawW)
    offsetY := resolveAlign alignY (canvasH - drawH) }

/-! ### Transition engine (`run` and `getPoint`, source lines 275-365 and
426-547)

The engine model keeps every piece of engine state the verified claims
observe. Host-dependent pieces are abstracted as parameters:

* decoded images are opaque ids (`ℕ`); `samplesOf i` is the list of sampled
  opaque pixels of image `i` that survive the alpha-threshold and bounds
  checks of the sampling loop (lines 452-469), each carrying its target
  canvas position and its `rgba(...)` fill string;
* `cell` is the grid cell size `Math.max(8, Math.round(step))` (line 447),
  whose `step` input depends on the host viewport;
* `rnd` is the stream of `Math.random() * dimension` draws, consumed in
  order (two per sample that has no matched previous particle — JS `??`
  only evaluates its right operand when the left is nullish);
* `readPixel x y` is the `ctx.getImageData` readback at a previous
  particle's position, already rendered as an `rgba(...)` string, with
  `none` modelling the `try/catch` failure path;
* the per-frame animation loop between generation builds is abstracted to
  its completion (its termination signal is `completed` on every particle);
  the bookkeeping the next generation build reads is exactly what the model
  tracks.
-/

/-- One sampled opaque pixel: target canvas position and fill string. -/
structure Sample where
  tx : ℚ
  ty : ℚ
  fill : String

/-- The engine options the generation builder reads. -/
structure EngineOpts where
  infinity : Bool
  isUpdateFromLastPosition : Bool
  duration : ℚ
  pointSize : ℚ
  pointShape : String
  jitter : ℚ
  easing : Easing
  sampleFromCanvas : Bool

/-- The per-sample body of the `getPoint` loop (lines 470-541): match the
closest previous particle via the grid (resetting it in place), else draw a
random start and acquire a particle from the pool. Returns the built points
in sample order together with the final grid, random-counter, pool and
fresh-id states. -/
def genPoints (col : String) (now : ℚ) (o : EngineOpts) (E : Env)
    (readPixel : ℚ → ℚ → Option String) (cell : ℚ) (rnd : ℕ → ℚ) :
    List Sample → Option (PGrid Point) → ℕ → List Point → ℕ →
    List Point × Option (PGrid Point) × ℕ × List Point × ℕ
  | [], g, rc, pool, fresh => ([], g, rc, pool, fresh)
  | s :: rest, g, rc, pool, fresh =>
    let pg : Option Point × Option (PGrid Point) :=
      match g with
      | none => (none, none)
      | some gr =>
        let tc := takeClosest (fun p => p.x) (fun p => p.y) cell gr s.tx s.ty
        (tc.1, some tc.2)
    match pg.1 with
    | some pp =>
      let initialFill :=
        if o.sampleFromCanvas then
          match readPixel pp.x pp.y with
          | some str => str
          | none => interpolateColor E pp.initialFillStyle pp.fillStyle pp.progress
        else interpolateColor E pp.initialFillStyle pp.fillStyle pp.progress
      let popt : PointOption :=
        { size := o.pointSize, shape := o.pointShape, jitter := o.jitter,
          w := s.tx, h := s.ty, x := some pp.x, y := some pp.y,
          fillStyle := some s.fill, initialFillStyle := some initialFill,
          easing := some o.easing, animationDuration := some o.duration }
      let p := pp.reset col now 0 0 popt
      let out := genPoints col now o E readPixel cell rnd rest pg.2 rc pool fresh
      (p :: out.1, out.2)
    | none =>
      let startX := rnd rc
      let startY := rnd (rc + 1)
      let popt : PointOption :=
        { size := o.pointSize, shape := o.pointShape, jitter := o.jitter,
          w := s.tx, h := s.ty, x := some startX, y := some startY,
          fillStyle := some s.fill, initialFillStyle := some col,
          easing := some o.easing, animationDuration := some o.duration }
      let acq := getPointFromPool col now 0 0 fresh popt pool
      let fresh1 := if pool.isEmpty then fresh + 1 else fresh
      let out := genPoints col now o E readPixel cell rnd rest pg.2 (rc + 2) acq.2 fresh1
      (acq.1 :: out.1, out.2)

/-- Source `getPoint` (lines 426-547) from the point where the sample list is
fixed: build the grid from the previous particles when there are any, run the
per-sample loop, then drain the unclaimed leftovers (pushed back into the
caller's previous-particle list for recycling). Returns
(new points, leftovers, random counter, pool, fresh counter). -/
def getPointModel (col : String) (now : ℚ) (o : EngineOpts) (E : Env)
    (readPixel : ℚ → ℚ → Option String) (cell : ℚ) (rnd : ℕ → ℚ)
    (samples : List Sample) (pre : List Point) (rc : ℕ) (pool : List Point)
    (fresh : ℕ) : List Point × List Point × ℕ × List Point × ℕ :=
  let g0 : Option (PGrid Point) :=
    if pre.isEmpty then none
    else some (buildPointGrid (fun p => p.x) (fun p => p.y) cell pre)
  let out := genPoints col now o E readPixel cell rnd samples g0 rc pool fresh
  let leftover := match out.2.1 with
    | some gr => (drainRemaining gr).1
    | none => []
  (out.1, leftover, out.2.2.1, out.2.2.2.1, out.2.2.2.2)

/-- Engine state observed across `run` invocations. `displayed` and `gens`
are ghost traces recording, in order, the image each generation was built
for and the particle list it was built as. -/
structure EngState where
  imageDatas : List ℕ
  historyStack : List ℕ
  pointArr : List Point
  pool : List Point
  rc : ℕ
  fresh : ℕ
  displayed : List ℕ
  gens : List (List Point)
  doneFired : Bool

/-- The generation-building tail of one `run` invocation (lines 288-306):
pop the next image off the END of the pending list (JS `Array.pop`), push it
onto the history stack, and build its particle generation — recycling the
whole previous generation through the pool when continuity is off, matching
against it through the grid (and recycling only the unclaimed leftovers)
when continuity is on. -/
def runGen (col : String) (now : ℚ) (o : EngineOpts) (E : Env)
    (readPixel : ℚ → ℚ → Option String) (cell : ℚ) (rnd : ℕ → ℚ)
    (samplesOf : ℕ → List Sample) (s : EngState) : EngState :=
  match s.imageDatas.getLast? with
  | none => s
  | some img =>
    let pending := s.imageDatas.dropLast
    let history := s.historyStack ++ [img]
    if o.isUpdateFromLastPosition then
      let out := getPointModel col now o E readPixel cell rnd (samplesOf img)
        s.pointArr s.rc s.pool s.fresh
      let pool2 := recyclePoints out.2.2.2.1 out.2.1
      { imageDatas := pending, historyStack := history, pointArr := out.1,
        pool := pool2, rc := out.2.2.1, fresh := out.2.2.2.2,
        displayed := s.displayed ++ [img], gens := s.gens ++ [out.1],
        doneFired := s.doneFired }
    else
      let pool1 := recyclePoints s.pool s.pointArr
      let out := getPointModel col now o E readPixel cell rnd (samplesOf img)
        [] s.rc pool1 s.fresh
      { imageDatas := pending, historyStack := history, pointArr := out.1,
        pool := out.2.2.2.1, rc := out.2.2.1, fresh := out.2.2.2.2,
        displayed := s.displayed ++ [img], gens := s.gens ++ [out.1],
        doneFired := s.doneFired }

/-- One invocation of `run` (lines 275-307): in infinite mode with an empty
queue, shift the oldest displayed image off the history stack back into the
queue (a `shift` on an empty history leaves the engine stuck, which cannot
arise in practice); with an empty queue otherwise, stop the frame loop and
fire the completion callback; else build the next generation. -/
def runOnce (col : String) (now : ℚ) (o : EngineOpts) (E : Env)
    (readPixel : ℚ → ℚ → Option String) (cell : ℚ) (rnd : ℕ → ℚ)
    (samplesOf : ℕ → List Sample) (s : EngState) : EngState :=
  if o.infinity ∧ s.imageDatas.isEmpty then
    match s.historyStack with
    | [] => s
    | h :: hs =>
      runGen col now o E readPixel cell rnd samplesOf
        { s with imageDatas := s.imageDatas ++ [h], historyStack := hs }
  else if s.imageDatas.isEmpty then
    { s with doneFired := true }
  else
    runGen col now o E readPixel cell rnd samplesOf s

/-- The `run` / frame-loop / delayed-restart cycle, fuel-bounded: each step
is one `run` invocation plus its generation's frame loop driven to
completion; once the completion callback has fired nothing schedules a
further `run`. -/
def runModel (col : String) (now : ℚ) (o : EngineOpts) (E : Env)
    (readPixel : ℚ → ℚ → Option String) (cell : ℚ) (rnd : ℕ → ℚ)
    (samplesOf : ℕ → List Sample) : ℕ → EngState → EngState
  | 0, s => s
  | n + 1, s =>
    if s.doneFired then s
    else runModel col now o E readPixel cell rnd samplesOf n
      (runOnce col now o E readPixel cell rnd samplesOf s)

/-! ### Concrete instances used by witnesses and counterexamples -/

/-- The concrete particle options used by the C1/C8 instances: linear easing,
duration 1000, explicit start (0, 0), target (5, 5). -/
def optLin : PointOption :=
  { size := 1, shape := "circle", jitter := 0, w := 5, h := 5,
    x := some 0, y := some 0, fillStyle := some "#fff",
    initialFillStyle := some "#fff", easing := some (.named "linear"),
    animationDuration := some 1000 }

/-- A particle built by the constructor at time 0 with the default
`easeInOutCubic` easing and duration 1000. -/
def pCubic : Point :=
  mkPoint "#abc" 0 0 0 0
    { size := 1, shape := "circle", jitter := 0, w := 5, h := 5,
      x := some 0, y := some 0, fillStyle := some "#fff",
      initialFillStyle := some "#fff",
      easing := some (.named "easeInOutCubic"), animationDuration := some 1000 }

/-- The engine state at the start of a run: the decoded image queue in
supplied order, empty history, no particles, and a caller-chosen initial
pool and counters. -/
def initEngState (images : List ℕ) (pool : List Point) (rc fresh : ℕ) : EngState :=
  { imageDatas := images, historyStack := [], pointArr := [], pool := pool,
    rc := rc, fresh := fresh, displayed := [], gens := [], doneFired := false }

/-- Concrete engine options for the C7 instances: 2 images, non-infinite,
no positional continuity. -/
def oEx : EngineOpts :=
  { infinity := false, isUpdateFromLastPosition := false, duration := 1000,
    pointSize := 1, pointShape := "circle", jitter := 0,
    easing := .named "easeInOutCubic", sampleFromCanvas := true }

/-- One concrete sampled pixel. -/
def sampleEx : Sample := { tx := 1, ty := 1, fill := "#fff" }

/-! ## Claim theorems -/

/-- C3: for every image and surface size, `computeImageTransform` scales by
`surface/image` per axis for `stretch`, by the uniform `min` (resp. `max`)
of the two ratios for `contain` (resp. `cover`), and by 1 for `none`; on
each axis independently the offset is `resolveAlign` of the remaining space
`surfaceDimension - imageDimension * scale`, which is 0 for `start` (and for
an absent alignment), half the remainder for `center`, and the full
remainder for `end`; in particular image 100x50 on surface 400x100 with
`contain`/`center`/`center` gives scale 2 (drawn 200x100), offsetX 100 and
offsetY 0. -/
theorem c3_computeImageTransform_spec :
    (∀ iw ih cw ch ax ay,
      (computeImageTransform iw ih cw ch "stretch" ax ay).scaleX = cw / iw ∧
      (computeImageTransform iw ih cw ch "stretch" ax ay).scaleY = ch / ih) ∧
    (∀ iw ih cw ch ax ay,
      (computeImageTransform iw ih cw ch "contain" ax ay).scaleX
          = min (cw / iw) (ch / ih) ∧
      (computeImageTransform iw ih cw ch "contain" ax ay).scaleY
          = min (cw / iw) (ch / ih)) ∧
    (∀ iw ih cw ch ax ay,
      (computeImageTransform iw ih cw ch "cover" ax ay).scaleX
          = max (cw / iw) (ch / ih) ∧
      (computeImageTransform iw ih cw ch "cover" ax ay).scaleY
          = max (cw / iw) (ch / ih)) ∧
    (∀ iw ih cw ch ax ay,
      (computeImageTransform iw ih cw ch "none" ax ay).scaleX = 1 ∧
      (computeImageTransform iw ih cw ch "none" ax ay).scaleY = 1) ∧
    (∀ iw ih cw ch fit ax ay,
      (computeImageTransform iw ih cw ch fit ax ay).offsetX
          = resolveAlign ax (cw - iw * (computeImageTransform iw ih cw ch fit ax ay).scaleX) ∧
      (computeImageTransform iw ih cw ch fit ax ay).offsetY
          = resolveAlign ay (ch - ih * (computeImageTransform iw ih cw ch fit ax ay).scaleY)) ∧
    (∀ rem : ℚ, resolveAlign (some "start") rem = 0 ∧
      resolveAlign (some "center") rem = rem / 2 ∧
      resolveAlign (some "end") rem = rem ∧
      resolveAlign none rem = 0) ∧
    ((computeImageTransform 100 50 400 100 "contain" (some "center") (some "center")).scaleX = 2 ∧
     (computeImageTransform 100 50 400 100 "contain" (some "center") (some "center")).scaleY = 2 ∧
     (computeImageTransform 100 50 400 100 "contain" (some "center") (some "center")).offsetX = 100 ∧
     (computeImageTransform 100 50 400 100 "contain" (some "center") (some "center")).offsetY = 0) := by
  refine ⟨?_, ?_, ?_, ?_, ?_, ?_, ?_⟩
  · intro iw ih cw ch ax ay
    constructor <;> simp [computeImageTransform]
  · intro iw ih cw ch ax ay
    constructor <;> simp [computeImageTransform]
  · intro iw ih cw ch ax ay
    constructor <;> simp [computeImageTransform]
  · intro iw ih cw ch ax ay
    constructor <;> simp [computeImageTransform]
  · intro iw ih cw ch fit ax ay
    constructor <;> rfl
  · intro rem
    refine ⟨?_, ?_, ?_, ?_⟩ <;> simp [resolveAlign]
  · refine ⟨?_, ?_, ?_, ?_⟩ <;> simp [computeImageTransform, resolveAlign] <;> norm_num

/-- C4: every named easing of the registry maps 0 to 0 and 1 to 1 (elastic
and bounce included, for every host `Env`); an unrecognized name falls back
to `easeInOutCubic`, as does an absent easing option in the particle
constructor and in `reset`; a caller-supplied custom function is applied
verbatim. -/
theorem c4_easing_spec (E : Env) :
    (∀ n ∈ easingNames,
      applyEasing E (.named n) 0 = 0 ∧ applyEasing E (.named n) 1 = 1) ∧
    (∀ s, s ∉ easingNames → ∀ t, applyEasing E (.named s) t = easeInOutCubic t) ∧
    (∀ f t, applyEasing E (.custom f) t = f t) ∧
    (∀ col now rx ry fresh o, o.easing = none →
      (mkPoint col now rx ry fresh o).easing = .named "easeInOutCubic") ∧
    (∀ p col now rx ry o, o.easing = none →
      (Point.reset p col now rx ry o).easing = .named "easeInOutCubic") := by
  refine ⟨?_, ?_, ?_, ?_, ?_⟩
  · intro n hn
    simp only [easingNames, List.mem_cons, List.not_mem_nil, or_false] at hn
    rcases hn with rfl | rfl | rfl | rfl | rfl | rfl | rfl | rfl | rfl | rfl |
      rfl | rfl | rfl | rfl | rfl | rfl | rfl <;>
      constructor <;>
        simp [applyEasing, linear, easeInQuad, easeOutQuad, easeInOutQuad,
          easeInCubic, easeOutCubic, easeInOutCubic, easeInElastic,
          easeOutElastic, easeInOutElastic, easeInBounce, easeOutBounce,
          easeInOutBounce] <;>
        norm_num
  · intro s hn t
    simp only [easingNames, List.mem_cons, List.not_mem_nil, or_false] at hn
    push_neg at hn
    obtain ⟨h1, h2, h3, h4, h5, h6, h7, h8, h9, h10, h11, h12, h13, h14, h15,
      h16, h17⟩ := hn
    simp only [applyEasing, if_neg h1, if_neg h2, if_neg h3, if_neg h4,
      if_neg h5, if_neg h6, if_neg h7, if_neg h8, if_neg h9, if_neg h10,
      if_neg h11, if_neg h12, if_neg h13, if_neg h14, if_neg h15, if_neg h16,
      if_neg h17]
  · intro f t
    rfl
  · intro col now rx ry fresh o h
    simp [mkPoint, jsOrEasing, h]
  · intro p col now rx ry o h
    simp [Point.reset, jsOrEasing, h]

/-- C4 witness: the registry law applied at the concrete name
`easeOutBounce` and endpoint 1. -/
theorem c4_easing_spec_witness :
    applyEasing zeroEnv (.named "easeOutBounce") 1 = 1 :=
  ((c4_easing_spec zeroEnv).1 "easeOutBounce" (by decide)).2

/-- C9: `#rrggbb` and `#rgb` hex inputs parse with alpha defaulting to 255
(`#ff0000` and `#f00` both give (255, 0, 0, 255)), and any input matched by
neither the hex regex nor the rgb/rgba regex silently parses to opaque
white. -/
theorem c9_hex_parse_and_fallback :
    parseColorToTyped "#ff0000" = (255, 0, 0, 255) ∧
    parseColorToTyped "#f00" = (255, 0, 0, 255) ∧
    (∀ s : String, hexMatch s = none → rgbaSearch s.data = none →
      parseColorToTyped s = (255, 255, 255, 255)) := by
  refine ⟨by decide, by decide, ?_⟩
  intro s h1 h2
  simp [parseColorToTyped, h1, h2]

/-- C9 witness: the fallback clause applied at the concrete unparseable
input `"hello"`. -/
theorem c9_hex_parse_and_fallback_witness :
    parseColorToTyped "hello" = (255, 255, 255, 255) :=
  c9_hex_parse_and_fallback.2.2 "hello" (by decide) (by decide)

/-- Rounding a cast natural is the identity. -/
theorem jsRound_natCast (n : ℕ) : jsRound (n : ℚ) = n := by
  unfold jsRound
  rw [show ((n : ℚ) + 1 / 2) = ((n : ℤ) : ℚ) + 1 / 2 by push_cast; ring,
    Int.floor_int_add]
  norm_num

/-- Evaluation of the codec on the concrete claim input: parsing scales the
0-1 float alpha onto 0-255 and rounds (`0.5 * 255` rounds to 128). -/
theorem parse_rgba_half : parseColorToTyped "rgba(10,20,30,0.5)" = (10, 20, 30, 128) := by
  have hh : hexMatch "rgba(10,20,30,0.5)" = none := by decide
  have hs : rgbaSearch ("rgba(10,20,30,0.5)".data)
      = some (10, 20, 30, some ['0', '.', '5']) := by decide
  have hf : jsParseFloat ['0', '.', '5'] = some (1 / 2) := by
    have h1 : List.takeWhile (fun c => c.isDigit) ['0', '.', '5'] = ['0'] := by decide
    have h2 : List.dropWhile (fun c => c.isDigit) ['0', '.', '5'] = ['.', '5'] := by decide
    have h3 : List.takeWhile (fun c => c.isDigit) ['5'] = ['5'] := by decide
    have h4 : decVal ['0'] = 0 := by decide
    have h5 : decVal ['5'] = 5 := by decide
    simp only [jsParseFloat, h1, h2, h3, h4, h5]
    norm_num
  simp only [parseColorToTyped, hh, hs, hf]
  norm_num [jsRound, clampByte]
  decide

/-- Interpolating a parsed color with itself reproduces its channels, the
alpha emitted as the exact rational `a / 255`. -/
theorem interp_self (s : String) (r g b a : ℕ)
    (h : parseColorToTyped s = (r, g, b, a)) :
    interpolateColorRGBA s s 0 = ((r : ℤ), (g : ℤ), (b : ℤ), (a : ℚ) / 255) := by
  simp only [interpolateColorRGBA, h]
  norm_num [jsRound_natCast]

/-- C5 counterexample: the emitted alpha for channels (10, 20, 30) with
alpha byte 128 is exactly `128/255 = 0.50196...`, not the 3-decimal
rounding `0.502` the claim states (the source template literal renders
`aInt / 255` at full precision; no 3-decimal rounding exists in the code). -/
theorem c5_color_roundtrip_counterexample :
    (interpolateColorRGBA "rgba(10,20,30,0.5)" "rgba(10,20,30,0.5)" 0).2.2.2
        = 128 / 255 ∧
    (128 / 255 : ℚ) ≠ 0.502 := by
  constructor
  · rw [interp_self "rgba(10,20,30,0.5)" 10 20 30 128 parse_rgba_half]
    norm_num
  · norm_num

/-- C5 (amended): `parse("rgba(10,20,30,0.5)") = (10,20,30,128)` (alpha
scaled to 0-255 and rounded), and formatting reproduces the parsed numeric
channels exactly — the emitted alpha component is the full-precision value
`aInt / 255` (for the example, `128/255`), not a 3-decimal rounding. -/
theorem c5_color_roundtrip_amended :
    parseColorToTyped "rgba(10,20,30,0.5)" = (10, 20, 30, 128) ∧
    (∀ s r g b a, parseColorToTyped s = (r, g, b, a) →
      interpolateColorRGBA s s 0 = ((r : ℤ), (g : ℤ), (b : ℤ), (a : ℚ) / 255)) ∧
    interpolateColorRGBA "rgba(10,20,30,0.5)" "rgba(10,20,30,0.5)" 0
        = (10, 20, 30, 128 / 255) := by
  refine ⟨parse_rgba_half, fun s r g b a h => interp_self s r g b a h, ?_⟩
  exact interp_self "rgba(10,20,30,0.5)" 10 20 30 128 parse_rgba_half

/-- C5 witness: the round-trip clause applied at the concrete claim input. -/
theorem c5_color_roundtrip_amended_witness :
    interpolateColorRGBA "rgba(10,20,30,0.5)" "rgba(10,20,30,0.5)" 0
        = (10, 20, 30, 128 / 255) :=
  c5_color_roundtrip_amended.2.1 "rgba(10,20,30,0.5)" 10 20 30 128
    c5_color_roundtrip_amended.1

/-- Observable outcome of one `Point.update` step, independent of the
interaction branch: `progress` is the eased value of
`Math.min(1, (now - startTime) / animationDuration)`, `completed` is that
value reaching 0.999, and the animation duration is untouched. -/
theorem update_obs (p : Point) (E : Env) (t : ℚ) (i : Option InteractionFrame) :
    (Point.update p E t i).completed
        = decide (applyEasing E p.easing (min 1 ((t - p.startTime) / p.animationDuration))
            ≥ (0.999 : ℚ)) ∧
    (Point.update p E t i).progress
        = applyEasing E p.easing (min 1 ((t - p.startTime) / p.animationDuration)) ∧
    (Point.update p E t i).animationDuration = p.animationDuration := by
  cases i with
  | none => exact ⟨rfl, rfl, rfl⟩
  | some it =>
    cases hb : !it.active <;>
      refine ⟨?_, ?_, ?_⟩ <;> simp only [Point.update, hb] <;> rfl

/-- The duration guard keeps positivity. -/
theorem durationOf_pos (o : Option ℚ) (keep : ℚ) (h : 0 < keep) :
    0 < durationOf o keep := by
  cases o with
  | none => exact h
  | some d => by_cases hd : 0 < d <;> simp [durationOf, hd, h]

/-- C10: a particle's `animationDuration` is always strictly positive — the
constructor starts from 1000 and both it and `reset` overwrite it only with
a supplied value that is greater than 0 (`update` never touches it), so
after any sequence of constructor and `reset` calls the divisor of
`(now - startTime) / animationDuration` inside `update` is nonzero. -/
theorem c10_duration_positive :
    (∀ col now rx ry fresh o, 0 < (mkPoint col now rx ry fresh o).animationDuration) ∧
    (∀ p col now rx ry o, 0 < p.animationDuration →
      0 < (Point.reset p col now rx ry o).animationDuration) ∧
    (∀ p E t i, (Point.update p E t i).animationDuration = p.animationDuration) ∧
    (∀ col now rx ry fresh o (l : List (String × ℚ × ℚ × ℚ × PointOption)),
      0 < ((l.foldl
        (fun p a => Point.reset p a.1 a.2.1 a.2.2.1 a.2.2.2.1 a.2.2.2.2)
        (mkPoint col now rx ry fresh o)).animationDuration)) := by
  have hmk : ∀ col now rx ry fresh o,
      0 < (mkPoint col now rx ry fresh o).animationDuration := by
    intro col now rx ry fresh o
    exact durationOf_pos _ _ (by norm_num)
  have hrs : ∀ p col now rx ry o, 0 < p.animationDuration →
      0 < (Point.reset p col now rx ry o).animationDuration := by
    intro p col now rx ry o h
    exact durationOf_pos _ _ h
  refine ⟨hmk, hrs, fun p E t i => (update_obs p E t i).2.2, ?_⟩
  intro col now rx ry fresh o l
  have aux : ∀ (l : List (String × ℚ × ℚ × ℚ × PointOption)) (p : Point),
      0 < p.animationDuration →
      0 < ((l.foldl
        (fun p a => Point.reset p a.1 a.2.1 a.2.2.1 a.2.2.2.1 a.2.2.2.2)
          p).animationDuration) := by
    intro l
    induction l with
    | nil => intro p h; exact h
    | cons a t ih => intro p h; exact ih _ (hrs _ _ _ _ _ _ h)
  exact aux l _ (hmk col now rx ry fresh o)

/-- C10 witness: positivity after a concrete constructor plus one `reset`
with a non-positive supplied duration. -/
theorem c10_duration_positive_witness :
    0 < ((([("c", (0 : ℚ), (0 : ℚ), (0 : ℚ),
        ({ size := 1, shape := "circle", jitter := 0, w := 5, h := 5,
           animationDuration := some (-3) } : PointOption))] :
          List (String × ℚ × ℚ × ℚ × PointOption)).foldl
        (fun p a => Point.reset p a.1 a.2.1 a.2.2.1 a.2.2.2.1 a.2.2.2.2)
        (mkPoint "c" 0 0 0 0
          { size := 1, shape := "circle", jitter := 0, w := 5, h := 5 })).animationDuration) :=
  c10_duration_positive.2.2.2 "c" 0 0 0 0 _ _





/-- C1 counterexample: a particle constructed at t0 = 0 with duration
D = 1000 and the default `easeInOutCubic` easing reports `completed = true`
at sampled time 990, which is strictly below t0 + D * 0.999 = 999 — the
eased progress (0.999996) crosses 0.999 well before the raw time ratio
does, so "completed is false for every now < t0 + D*0.999" fails and is not
equivalent to "completed ⟺ progress ≥ 0.999". -/
theorem c1_completed_counterexample :
    (990 : ℚ) < 0 + 0.999 * 1000 ∧
    (Point.update pCubic zeroEnv 990 none).completed = true := by
  constructor
  · norm_num
  · rw [(update_obs pCubic zeroEnv 990 none).1]
    have h1 : pCubic.easing = .named "easeInOutCubic" := by
      simp [pCubic, mkPoint, jsOrEasing]
    have h2 : pCubic.startTime = 0 := rfl
    have h3 : pCubic.animationDuration = 1000 := by
      norm_num [pCubic, mkPoint, durationOf]
    rw [h1, h2, h3, decide_eq_true_eq]
    have hm : min (1 : ℚ) ((990 - 0) / 1000) = 99 / 100 := by norm_num
    rw [hm]
    simp [applyEasing, easeInOutCubic]
    norm_num

/-- C1 (amended): after `update(now)` the `completed` flag is true exactly
when the eased progress `applyEasing(min(1, (now - t0)/D))` is at least
0.999; for the `linear` easing (where eased progress equals the raw ratio)
this specializes to the claim's timing law: `completed` is false for every
sampled `now < t0 + D*0.999` and true at `now = t0 + D`. For shaped easings
the flag can become true before `t0 + D*0.999`. -/
theorem c1_completed_semantics (E : Env) (p : Point) (now : ℚ)
    (i : Option InteractionFrame) :
    ((Point.update p E now i).completed = true ↔
      applyEasing E p.easing (min 1 ((now - p.startTime) / p.animationDuration))
        ≥ (0.999 : ℚ)) ∧
    (p.easing = .named "linear" → 0 < p.animationDuration →
      ((now < p.startTime + 0.999 * p.animationDuration →
        (Point.update p E now i).completed = false) ∧
       (now = p.startTime + p.animationDuration →
        (Point.update p E now i).completed = true))) := by
  constructor
  · rw [(update_obs p E now i).1]
    exact decide_eq_true_iff
  · intro he hD
    constructor
    · intro hlt
      rw [(update_obs p E now i).1, decide_eq_false_iff_not]
      rw [he]
      simp only [applyEasing, if_pos rfl, linear]
      intro hge
      have h1 : min (1 : ℚ) ((now - p.startTime) / p.animationDuration)
          ≤ (now - p.startTime) / p.animationDuration := min_le_right _ _
      have h2 : (now - p.startTime) / p.animationDuration < 0.999 := by
        rw [div_lt_iff₀ hD]
        linarith
      linarith [le_trans hge h1]
    · intro heq
      rw [(update_obs p E now i).1]
      apply decide_eq_true
      rw [he]
      simp only [applyEasing, if_pos rfl, linear]
      have : (now - p.startTime) / p.animationDuration = 1 := by
        rw [heq]
        field_simp
      rw [this]
      norm_num

/-- C1 witness: the linear-easing completion law applied to a concrete
particle (t0 = 0, D = 1000) at the exact end time 1000. -/
theorem c1_completed_semantics_witness :
    (Point.update (mkPoint "#abc" 0 0 0 0 optLin) zeroEnv 1000 none).completed = true := by
  refine ((c1_completed_semantics zeroEnv (mkPoint "#abc" 0 0 0 0 optLin) 1000 none).2
    ?_ ?_).2 ?_
  · simp [mkPoint, optLin, jsOrEasing]
  · norm_num [mkPoint, optLin, durationOf]
  · norm_num [mkPoint, optLin, durationOf]

/-- C8 counterexample: `update` does not clamp the raw time ratio below at
0 — a particle reset at t0 = 1000 with the linear easing and D = 1000,
sampled at now = 0, gets `progress = -1` (the easing is applied to the
negative ratio), while the claim's formula
`applyEasing(clamp((now-t0)/D, 0, 1))` gives 0. -/
theorem c8_progress_counterexample :
    (Point.update (mkPoint "#abc" 1000 0 0 0 optLin) zeroEnv 0 none).progress = -1 ∧
    applyEasing zeroEnv (.named "linear") (clampQ ((0 - 1000) / 1000) 0 1) = 0 ∧
    (-1 : ℚ) ≠ 0 := by
  refine ⟨?_, ?_, by norm_num⟩
  · rw [(update_obs _ zeroEnv 0 none).2.1]
    have h1 : (mkPoint "#abc" 1000 0 0 0 optLin).easing = .named "linear" := by
      simp [mkPoint, optLin, jsOrEasing]
    have h2 : (mkPoint "#abc" 1000 0 0 0 optLin).startTime = 1000 := rfl
    have h3 : (mkPoint "#abc" 1000 0 0 0 optLin).animationDuration = 1000 := by
      norm_num [mkPoint, optLin, durationOf]
    rw [h1, h2, h3]
    simp only [applyEasing, if_pos rfl, linear]
    norm_num
  · simp only [applyEasing, if_pos rfl, linear, clampQ]
    norm_num

/-- C8 (amended): `update` computes
`progress = applyEasing(min(1, (now - startTime) / duration))` — the raw
ratio is clamped above at 1 but not below at 0; whenever `now ≥ startTime`
(and the duration is positive, which C10 guarantees) the ratio is
nonnegative, so the computed value agrees with the claim's two-sided clamp
`clamp(·, 0, 1)`. -/
theorem c8_progress_formula (E : Env) (p : Point) (now : ℚ)
    (i : Option InteractionFrame) :
    (Point.update p E now i).progress
        = applyEasing E p.easing (min 1 ((now - p.startTime) / p.animationDuration)) ∧
    (0 < p.animationDuration → p.startTime ≤ now →
      min 1 ((now - p.startTime) / p.animationDuration)
        = clampQ ((now - p.startTime) / p.animationDuration) 0 1) := by
  refine ⟨(update_obs p E now i).2.1, ?_⟩
  intro hD hle
  have hv : 0 ≤ (now - p.startTime) / p.animationDuration :=
    div_nonneg (by linarith) hD.le
  rw [clampQ, max_eq_right (le_min (by norm_num) hv)]

/-- C8 witness: the formula and the clamp agreement at a concrete particle
with `now` past its start time. -/
theorem c8_progress_formula_witness :
    min 1 ((1500 - (mkPoint "#abc" 1000 0 0 0 optLin).startTime)
        / (mkPoint "#abc" 1000 0 0 0 optLin).animationDuration)
      = clampQ ((1500 - (mkPoint "#abc" 1000 0 0 0 optLin).startTime)
        / (mkPoint "#abc" 1000 0 0 0 optLin).animationDuration) 0 1 := by
  refine (c8_progress_formula zeroEnv (mkPoint "#abc" 1000 0 0 0 optLin) 1500 none).2
    ?_ ?_
  · norm_num [mkPoint, optLin, durationOf]
  · show (mkPoint "#abc" 1000 0 0 0 optLin).startTime ≤ 1500
    norm_num [mkPoint, optLin]

/-- Recycling below capacity pushes every particle. -/
theorem recyclePoints_all (pool ps : List Point)
    (h : pool.length + ps.length ≤ DEFAULT_MAX_POOL_SIZE) :
    recyclePoints pool ps = pool ++ ps := by
  induction ps generalizing pool with
  | nil => simp [recyclePoints]
  | cons p t ih =>
    have hlt : pool.length < DEFAULT_MAX_POOL_SIZE := by
      simp only [List.length_cons] at h
      omega
    have step : recyclePoints pool (p :: t) = recyclePoints (pool ++ [p]) t := by
      simp [recyclePoints, hlt]
    rw [step, ih (pool ++ [p]) (by simp at h ⊢; omega)]
    simp

/-- C6: recycling N retired particles while N fits under the remaining pool
capacity grows the pool by exactly those N particles (pushed in order); a
pool already at or above the 200000 capacity drops every further particle;
`acquireOrCreate` pops the most recently pooled instance and `reset`s it —
preserving its identity, so no allocation happens — and only constructs a
fresh particle when the pool is empty. -/
theorem c6_pool_spec :
    (∀ pool ps : List Point, pool.length + ps.length ≤ DEFAULT_MAX_POOL_SIZE →
      recyclePoints pool ps = pool ++ ps ∧
      (recyclePoints pool ps).length = pool.length + ps.length) ∧
    (∀ pool ps : List Point, DEFAULT_MAX_POOL_SIZE ≤ pool.length →
      recyclePoints pool ps = pool) ∧
    (∀ col now rx ry fresh o (pool : List Point) (p : Point),
      getPointFromPool col now rx ry fresh o (pool ++ [p])
          = (Point.reset p col now rx ry o, pool) ∧
      (Point.reset p col now rx ry o).id = p.id) ∧
    (∀ col now rx ry fresh o,
      getPointFromPool col now rx ry fresh o []
          = (mkPoint col now rx ry fresh o, [])) := by
  refine ⟨?_, ?_, ?_, ?_⟩
  · intro pool ps h
    refine ⟨recyclePoints_all pool ps h, ?_⟩
    rw [recyclePoints_all pool ps h]
    simp
  · intro pool ps h
    induction ps with
    | nil => rfl
    | cons p t ih =>
      have : ¬ pool.length < DEFAULT_MAX_POOL_SIZE := by omega
      simpa [recyclePoints, this] using ih
  · intro col now rx ry fresh o pool p
    constructor
    · simp [getPointFromPool]
    · rfl
  · intro col now rx ry fresh o
    rfl

/-- C6 witness: recycling one particle into an empty pool pools exactly it. -/
theorem c6_pool_spec_witness :
    recyclePoints [] [mkPoint "c" 0 0 0 0 optLin]
        = [] ++ [mkPoint "c" 0 0 0 0 optLin] :=
  (c6_pool_spec.1 [] [mkPoint "c" 0 0 0 0 optLin]
    (by norm_num [DEFAULT_MAX_POOL_SIZE])).1

/-! ### Lemmas for the spatial index (C2) -/

theorem gridGet_nil {α : Type} (k : ℤ × ℤ) : gridGet ([] : PGrid α) k = [] := rfl

theorem gridGet_cons {α : Type} (k0 : ℤ × ℤ) (b : List α) (t : PGrid α) (k : ℤ × ℤ) :
    gridGet ((k0, b) :: t) k = if k0 = k then b else gridGet t k := rfl

theorem gridElems_nil {α : Type} : gridElems ([] : PGrid α) = [] := rfl

theorem gridElems_cons {α : Type} (e : (ℤ × ℤ) × List α) (t : PGrid α) :
    gridElems (e :: t) = e.2 ++ gridElems t := by
  simp [gridElems]

theorem mem_gridElems {α : Type} {g : PGrid α} {q : α} :
    q ∈ gridElems g ↔ ∃ e ∈ g, q ∈ e.2 := by
  simp only [gridElems, List.mem_flatten, List.mem_map]
  constructor
  · rintro ⟨l, ⟨e, he, rfl⟩, hq⟩
    exact ⟨e, he, hq⟩
  · rintro ⟨e, he, hq⟩
    exact ⟨e.2, ⟨e, he, rfl⟩, hq⟩

theorem withIdx_eq_nil {α : Type} {l : List α} {n : ℕ} :
    withIdx l n = [] ↔ l = [] := by
  cases l <;> simp [withIdx]

theorem mem_withIdx_get {α : Type} :
    ∀ {l : List α} {n i : ℕ} {q : α},
      (i, q) ∈ withIdx l n → n ≤ i ∧ l[i - n]? = some q := by
  intro l
  induction l with
  | nil => intro n i q h; simp [withIdx] at h
  | cons a t ih =>
    intro n i q h
    rcases List.mem_cons.1 h with h | h
    · obtain ⟨h1, h2⟩ := Prod.mk.injEq .. ▸ h
      cases h
      simp
    · obtain ⟨h1, h2⟩ := ih h
      refine ⟨by omega, ?_⟩
      have harith : i - n = (i - (n + 1)) + 1 := by omega
      rw [harith]
      simpa using h2

theorem get_mem_withIdx {α : Type} :
    ∀ {l : List α} {j n : ℕ} {q : α},
      l[j]? = some q → (n + j, q) ∈ withIdx l n := by
  intro l
  induction l with
  | nil => intro j n q h; simp at h
  | cons a t ih =>
    intro j n q h
    cases j with
    | zero =>
      simp at h
      subst h
      simp [withIdx]
    | succ j =>
      simp at h
      have := ih (n := n + 1) h
      have harith : n + (j + 1) = (n + 1) + j := by omega
      rw [harith]
      exact List.mem_cons_of_mem _ this

theorem mem_scanCands {α : Type} {g : PGrid α} {gx gy : ℤ} {k : ℤ × ℤ} {i : ℕ} {q : α} :
    (k, i, q) ∈ scanCands g gx gy ↔ k ∈ nbhd gx gy ∧ (i, q) ∈ withIdx (gridGet g k) 0 := by
  constructor
  · intro h
    simp only [scanCands, List.mem_flatMap, List.mem_map] at h
    obtain ⟨k', hk', ia, hia, heq⟩ := h
    obtain ⟨h1, h2, h3⟩ := Prod.mk.injEq .. ▸ heq
    cases heq
    exact ⟨hk', hia⟩
  · intro ⟨h1, h2⟩
    simp only [scanCands, List.mem_flatMap, List.mem_map]
    exact ⟨k, h1, (i, q), h2, rfl⟩

theorem scanCands_eq_nil {α : Type} {g : PGrid α} {gx gy : ℤ} :
    scanCands g gx gy = [] ↔ ∀ k ∈ nbhd gx gy, gridGet g k = [] := by
  simp [scanCands, List.flatMap_eq_nil_iff, withIdx_eq_nil]

theorem gridElems_insert {α : Type} (k : ℤ × ℤ) (p : α) (g : PGrid α) :
    (gridElems (gridInsert k p g) : Multiset α) = p ::ₘ (gridElems g : Multiset α) := by
  induction g with
  | nil => simp [gridInsert, gridElems]
  | cons e t ih =>
    obtain ⟨k0, b⟩ := e
    by_cases hk : k0 = k
    · simp only [gridInsert, if_pos hk, gridElems_cons]
      have hl : (b ++ [p]) ++ gridElems t = b ++ (p :: gridElems t) := by simp
      rw [hl, Multiset.cons_coe, Multiset.coe_eq_coe]
      exact List.perm_middle
    · simp only [gridInsert, if_neg hk, gridElems_cons]
      calc (↑(b ++ gridElems (gridInsert k p t)) : Multiset α)
          = ↑b + ↑(gridElems (gridInsert k p t)) := by rw [Multiset.coe_add]
        _ = ↑b + (p ::ₘ ↑(gridElems t)) := by rw [ih]
        _ = p ::ₘ (↑b + ↑(gridElems t)) := by
            rw [← Multiset.singleton_add, ← Multiset.singleton_add, add_left_comm]
        _ = p ::ₘ ↑(b ++ gridElems t) := by rw [Multiset.coe_add]

theorem gridElems_build {α : Type} (px py : α → ℚ) (cell : ℚ) (ps : List α) :
    (gridElems (buildPointGrid px py cell ps) : Multiset α) = (ps : Multiset α) := by
  have aux : ∀ (l : List α) (g : PGrid α),
      (gridElems (l.foldl
        (fun g p => gridInsert (cellOf cell (px p) (py p)) p g) g) : Multiset α)
        = (gridElems g : Multiset α) + (l : Multiset α) := by
    intro l
    induction l with
    | nil => intro g; simp
    | cons p t ih =>
      intro g
      simp only [List.foldl_cons]
      rw [ih, gridElems_insert]
      rw [← Multiset.cons_coe, ← Multiset.singleton_add, ← Multiset.singleton_add]
      rw [add_left_comm]
      rw [add_assoc]
  rw [buildPointGrid, aux]
  simp [gridElems]

theorem gridKeys_nodup_insert {α : Type} (k : ℤ × ℤ) (p : α) (g : PGrid α)
    (h : (g.map (fun e => e.1)).Nodup) :
    ((gridInsert k p g).map (fun e => e.1)).Nodup := by
  have keys : ∀ (g : PGrid α),
      (gridInsert k p g).map (fun e => e.1)
        = if k ∈ g.map (fun e => e.1) then g.map (fun e => e.1)
          else g.map (fun e => e.1) ++ [k] := by
    intro g
    induction g with
    | nil => simp [gridInsert]
    | cons e t ih =>
      obtain ⟨k0, b⟩ := e
      by_cases hk : k0 = k
      · subst hk
        simp [gridInsert]
      · simp only [gridInsert, if_neg hk, List.map_cons, ih]
        by_cases hm : k ∈ t.map (fun e => e.1) <;>
          simp [hm, hk, Ne.symm hk]
  rw [keys]
  by_cases hm : k ∈ g.map (fun e => e.1)
  · simpa [hm]
  · simp only [if_neg hm]
    simp [List.nodup_append, h, hm]

theorem gridCells_insert {α : Type} (px py : α → ℚ) (cell : ℚ) (k : ℤ × ℤ)
    (p : α) (hk : cellOf cell (px p) (py p) = k) :
    ∀ (g : PGrid α),
      (∀ e ∈ g, ∀ q ∈ e.2, cellOf cell (px q) (py q) = e.1) →
      ∀ e ∈ gridInsert k p g, ∀ q ∈ e.2, cellOf cell (px q) (py q) = e.1 := by
  intro g
  induction g with
  | nil =>
    intro _ e he q hq
    simp only [gridInsert, List.mem_singleton] at he
    subst he
    simp only [List.mem_singleton] at hq
    subst hq
    exact hk
  | cons e0 t ih =>
    obtain ⟨k0, b⟩ := e0
    intro h e he q hq
    by_cases hkk : k0 = k
    · subst hkk
      simp only [gridInsert, if_pos rfl] at he
      rcases List.mem_cons.1 he with rfl | he
      · rcases List.mem_append.1 hq with hq | hq
        · exact h (k0, b) (List.mem_cons_self _ _) q hq
        · simp only [List.mem_singleton] at hq
          subst hq
          exact hk
      · exact h e (List.mem_cons_of_mem _ he) q hq
    · simp only [gridInsert, if_neg hkk] at he
      rcases List.mem_cons.1 he with rfl | he
      · exact h (k0, b) (List.mem_cons_self _ _) q hq
      · exact ih (fun e' he' => h e' (List.mem_cons_of_mem _ he')) e he q hq

theorem gridWF_build {α : Type} (px py : α → ℚ) (cell : ℚ) (ps : List α) :
    ((buildPointGrid px py cell ps).map (fun e => e.1)).Nodup ∧
    (∀ e ∈ buildPointGrid px py cell ps, ∀ q ∈ e.2,
      cellOf cell (px q) (py q) = e.1) := by
  have aux : ∀ (l : List α) (g : PGrid α),
      (g.map (fun e => e.1)).Nodup →
      (∀ e ∈ g, ∀ q ∈ e.2, cellOf cell (px q) (py q) = e.1) →
      ((l.foldl (fun g p => gridInsert (cellOf cell (px p) (py p)) p g) g).map
        (fun e => e.1)).Nodup ∧
      (∀ e ∈ l.foldl (fun g p => gridInsert (cellOf cell (px p) (py p)) p g) g,
        ∀ q ∈ e.2, cellOf cell (px q) (py q) = e.1) := by
    intro l
    induction l with
    | nil => intro g h1 h2; exact ⟨h1, h2⟩
    | cons p t ih =>
      intro g h1 h2
      simp only [List.foldl_cons]
      exact ih _ (gridKeys_nodup_insert _ p g h1)
        (gridCells_insert px py cell _ p rfl g h2)
  exact aux ps [] (by simp) (by simp)

theorem mem_gridGet_mem_elems {α : Type} {g : PGrid α} {k : ℤ × ℤ} {q : α}
    (h : q ∈ gridGet g k) : q ∈ gridElems g := by
  induction g with
  | nil => simp [gridGet] at h
  | cons e t ih =>
    obtain ⟨k0, b⟩ := e
    rw [gridGet_cons] at h
    rw [gridElems_cons, List.mem_append]
    by_cases hk : k0 = k
    · rw [if_pos hk] at h
      exact Or.inl h
    · rw [if_neg hk] at h
      exact Or.inr (ih h)

theorem mem_elems_gridGet {α : Type} {px py : α → ℚ} {cell : ℚ} {g : PGrid α} {q : α}
    (hnd : (g.map (fun e => e.1)).Nodup)
    (hcell : ∀ e ∈ g, ∀ p ∈ e.2, cellOf cell (px p) (py p) = e.1)
    (hq : q ∈ gridElems g) :
    q ∈ gridGet g (cellOf cell (px q) (py q)) := by
  induction g with
  | nil => simp [gridElems] at hq
  | cons e t ih =>
    obtain ⟨k0, b⟩ := e
    rw [gridElems_cons] at hq
    rw [gridGet_cons]
    rcases List.mem_append.1 hq with hb | ht
    · have hc : cellOf cell (px q) (py q) = k0 :=
        hcell (k0, b) (List.mem_cons_self _ _) q hb
      rw [if_pos hc.symm]
      exact hb
    · have hnd' : (k0 :: t.map (fun e => e.1)).Nodup := by simpa using hnd
      have hndt : (t.map (fun e => e.1)).Nodup := (List.nodup_cons.1 hnd').2
      have hcellt : ∀ e ∈ t, ∀ p ∈ e.2, cellOf cell (px p) (py p) = e.1 :=
        fun e he => hcell e (List.mem_cons_of_mem _ he)
      have hrec := ih hndt hcellt ht
      have hne : k0 ≠ cellOf cell (px q) (py q) := by
        intro hEq
        obtain ⟨e', he', hqe⟩ := mem_gridElems.1 ht
        have hc' : cellOf cell (px q) (py q) = e'.1 := hcellt e' he' q hqe
        have hk0 : k0 ∉ t.map (fun e => e.1) := (List.nodup_cons.1 hnd').1
        exact hk0 (by rw [hEq, hc']; exact List.mem_map.2 ⟨e', he', rfl⟩)
      rw [if_neg hne]
      exact hrec

theorem pickStep_ne_none {α : Type} (px py : α → ℚ) (x y : ℚ)
    (b : Option (ℚ × (ℤ × ℤ) × ℕ × α)) (c : (ℤ × ℤ) × ℕ × α) :
    pickStep px py x y b c ≠ none := by
  cases b with
  | none => simp [pickStep]
  | some bv =>
    simp only [pickStep]
    split <;> simp

theorem foldl_pick_eq_none {α : Type} (px py : α → ℚ) (x y : ℚ) :
    ∀ (l : List ((ℤ × ℤ) × ℕ × α)) (b : Option (ℚ × (ℤ × ℤ) × ℕ × α)),
      l.foldl (pickStep px py x y) b = none ↔ b = none ∧ l = [] := by
  intro l
  induction l with
  | nil => intro b; simp
  | cons c t ih =>
    intro b
    simp only [List.foldl_cons]
    rw [ih]
    simp [pickStep_ne_none px py x y b c]

theorem foldl_pick_some_spec {α : Type} (px py : α → ℚ) (x y : ℚ) :
    ∀ (l : List ((ℤ × ℤ) × ℕ × α)) (b : Option (ℚ × (ℤ × ℤ) × ℕ × α))
      (r : ℚ × (ℤ × ℤ) × ℕ × α),
      l.foldl (pickStep px py x y) b = some r →
      (b = some r ∨ ∃ c ∈ l, r = (dist2 px py x y c.2.2, c)) ∧
      (∀ bv, b = some bv → r.1 ≤ bv.1) ∧
      (∀ c ∈ l, r.1 ≤ dist2 px py x y c.2.2) := by
  intro l
  induction l with
  | nil =>
    intro b r h
    simp only [List.foldl_nil] at h
    subst h
    exact ⟨Or.inl rfl, fun bv hbv => by cases hbv; exact le_refl _, by simp⟩
  | cons c t ih =>
    intro b r h
    simp only [List.foldl_cons] at h
    obtain ⟨hmem, hb, hall⟩ := ih (pickStep px py x y b c) r h
    have hstep_le : ∀ bv, pickStep px py x y b c = some bv →
        bv.1 ≤ dist2 px py x y c.2.2 := by
      intro bv hbv
      cases b with
      | none =>
        simp only [pickStep] at hbv
        cases hbv
        exact le_refl _
      | some b0 =>
        simp only [pickStep] at hbv
        split at hbv <;> cases hbv
        · exact le_refl _
        · exact le_of_not_lt (by assumption)
    have hstep_mono : ∀ b0 bv, b = some b0 → pickStep px py x y b c = some bv →
        bv.1 ≤ b0.1 := by
      intro b0 bv hb0 hbv
      subst hb0
      simp only [pickStep] at hbv
      split at hbv <;> cases hbv
      · exact le_of_lt (by assumption)
      · exact le_refl _
    have hpick : ∃ bv, pickStep px py x y b c = some bv :=
      Option.ne_none_iff_exists'.1 (pickStep_ne_none px py x y b c)
    obtain ⟨bv, hbv⟩ := hpick
    refine ⟨?_, ?_, ?_⟩
    · rcases hmem with hmem | ⟨c', hc', heq⟩
      · rw [hbv] at hmem
        cases hmem
        cases b with
        | none =>
          simp only [pickStep] at hbv
          cases hbv
          exact Or.inr ⟨c, List.mem_cons_self _ _, rfl⟩
        | some b0 =>
          simp only [pickStep] at hbv
          split at hbv <;> cases hbv
          · exact Or.inr ⟨c, List.mem_cons_self _ _, rfl⟩
          · exact Or.inl rfl
      · exact Or.inr ⟨c', List.mem_cons_of_mem _ hc', heq⟩
    · intro b0 hb0
      have h1 : r.1 ≤ bv.1 := hb bv hbv
      exact le_trans h1 (hstep_mono b0 bv hb0 hbv)
    · intro c' hc'
      rcases List.mem_cons.1 hc' with rfl | hc'
      · exact le_trans (hb bv hbv) (hstep_le bv hbv)
      · exact hall c' hc'

theorem coe_eraseIdx {α : Type} :
    ∀ {l : List α} {i : ℕ} {q : α}, l[i]? = some q →
      (l : Multiset α) = q ::ₘ (l.eraseIdx i : List α) := by
  intro l
  induction l with
  | nil => intro i q h; simp at h
  | cons a t ih =>
    intro i q h
    cases i with
    | zero =>
      simp at h
      subst h
      simp [List.eraseIdx]
    | succ i =>
      simp only [List.getElem?_cons_succ] at h
      rw [List.eraseIdx_cons_succ]
      calc ((a :: t : List α) : Multiset α) = a ::ₘ (t : Multiset α) := by simp
        _ = a ::ₘ (q ::ₘ (t.eraseIdx i : List α)) := by rw [ih h]
        _ = q ::ₘ (a ::ₘ (t.eraseIdx i : List α)) := Multiset.cons_swap a q _
        _ = q ::ₘ ((a :: t.eraseIdx i : List α) : Multiset α) := by simp

theorem gridRemoveAt_not_mem {α : Type} {g : PGrid α} {k : ℤ × ℤ} {i : ℕ}
    (h : k ∉ g.map (fun e => e.1)) : gridRemoveAt g k i = g := by
  induction g with
  | nil => rfl
  | cons e t ih =>
    simp only [List.map_cons, List.mem_cons] at h
    push_neg at h
    have hne : ¬ (e.1 = k) := fun hh => h.1 hh.symm
    simp only [gridRemoveAt, List.map_cons, if_neg hne]
    have ht := ih h.2
    simp only [gridRemoveAt] at ht
    rw [ht]

theorem gridElems_removeAt {α : Type} :
    ∀ {g : PGrid α} {k : ℤ × ℤ} {i : ℕ} {q : α},
      (g.map (fun e => e.1)).Nodup →
      (gridGet g k)[i]? = some q →
      (gridElems g : Multiset α) = q ::ₘ (gridElems (gridRemoveAt g k i) : Multiset α) := by
  intro g
  induction g with
  | nil => intro k i q _ h; simp [gridGet] at h
  | cons e t ih =>
    intro k i q hnd hget
    obtain ⟨k0, b⟩ := e
    have hnd' : (k0 :: t.map (fun e => e.1)).Nodup := by simpa using hnd
    by_cases hk : k0 = k
    · rw [gridGet_cons, if_pos hk] at hget
      have htail : gridRemoveAt t k i = t := by
        apply gridRemoveAt_not_mem
        rw [← hk]
        exact (List.nodup_cons.1 hnd').1
      simp only [gridRemoveAt, List.map_cons, if_pos hk]
      have hrest : List.map
          (fun e => if e.1 = k then (e.1, e.2.eraseIdx i) else e) t = t := htail
      rw [hrest, gridElems_cons, gridElems_cons]
      simp only
      calc ((b ++ gridElems t : List α) : Multiset α)
          = ↑b + ↑(gridElems t) := (Multiset.coe_add _ _).symm
        _ = (q ::ₘ (↑(b.eraseIdx i) : Multiset α)) + ↑(gridElems t) := by
            rw [← coe_eraseIdx hget]
        _ = q ::ₘ ((↑(b.eraseIdx i) : Multiset α) + ↑(gridElems t)) := by
            rw [Multiset.cons_add]
        _ = q ::ₘ ((b.eraseIdx i ++ gridElems t : List α) : Multiset α) := by
            rw [Multiset.coe_add]
    · rw [gridGet_cons, if_neg hk] at hget
      have hndt : (t.map (fun e => e.1)).Nodup := (List.nodup_cons.1 hnd').2
      have hrec := ih hndt hget
      simp only [gridRemoveAt, List.map_cons, if_neg hk]
      rw [gridElems_cons, gridElems_cons]
      simp only
      have hals : gridElems (List.map
          (fun e => if e.1 = k then (e.1, e.2.eraseIdx i) else e) t)
          = gridElems (gridRemoveAt t k i) := rfl
      rw [hals]
      calc ((b ++ gridElems t : List α) : Multiset α)
          = ↑b + ↑(gridElems t) := (Multiset.coe_add _ _).symm
        _ = ↑b + (q ::ₘ (↑(gridElems (gridRemoveAt t k i)) : Multiset α)) := by
            rw [hrec]
        _ = q ::ₘ (↑b + (↑(gridElems (gridRemoveAt t k i)) : Multiset α)) := by
            rw [← Multiset.singleton_add, ← Multiset.singleton_add, add_left_comm]
        _ = q ::ₘ ((b ++ gridElems (gridRemoveAt t k i) : List α) : Multiset α) := by
            rw [Multiset.coe_add]

theorem takeClosest_eq {α : Type} (px py : α → ℚ) (cell : ℚ) (g : PGrid α)
    (x y : ℚ) :
    takeClosest px py cell g x y
      = match (scanCands g ⌊x / cell⌋ ⌊y / cell⌋).foldl (pickStep px py x y) none with
        | none => (none, g)
        | some (_, k, i, p) => (some p, gridRemoveAt g k i) := rfl

/-- C2: for the grid built from a previous particle set with a given cell
size and any query point: a successful `takeClosest` returns a particle
found in one of the nine buckets of the 3x3 neighborhood of the query's
cell, of minimal squared Euclidean distance among everything in those nine
buckets, and removes exactly that one occurrence from the index (so with
distinct particles it can never be returned again); `takeClosest` returns
`none` exactly when all nine buckets are empty; when every indexed particle
lies in the 3x3 neighborhood the result is the brute-force nearest particle
of the whole set; the built index holds exactly the input multiset,
`drainRemaining` returns exactly what is left and clears the index. -/
theorem c2_spatial_index_spec {α : Type} [DecidableEq α] (px py : α → ℚ)
    (cell : ℚ) (ps : List α) (x y : ℚ) :
    (∀ p g', takeClosest px py cell (buildPointGrid px py cell ps) x y = (some p, g') →
      (∃ k ∈ nbhd ⌊x / cell⌋ ⌊y / cell⌋,
        p ∈ gridGet (buildPointGrid px py cell ps) k) ∧
      (∀ k ∈ nbhd ⌊x / cell⌋ ⌊y / cell⌋,
        ∀ q ∈ gridGet (buildPointGrid px py cell ps) k,
          dist2 px py x y p ≤ dist2 px py x y q) ∧
      (gridElems (buildPointGrid px py cell ps) : Multiset α)
          = p ::ₘ (gridElems g' : Multiset α) ∧
      ((gridElems (buildPointGrid px py cell ps)).Nodup → p ∉ gridElems g')) ∧
    ((takeClosest px py cell (buildPointGrid px py cell ps) x y).1 = none ↔
      ∀ k ∈ nbhd ⌊x / cell⌋ ⌊y / cell⌋,
        gridGet (buildPointGrid px py cell ps) k = []) ∧
    ((∀ q ∈ ps, cellOf cell (px q) (py q) ∈ nbhd ⌊x / cell⌋ ⌊y / cell⌋) →
      ps ≠ [] →
      ∃ p g', takeClosest px py cell (buildPointGrid px py cell ps) x y = (some p, g') ∧
        p ∈ ps ∧ ∀ q ∈ ps, dist2 px py x y p ≤ dist2 px py x y q) ∧
    ((gridElems (buildPointGrid px py cell ps) : Multiset α) = (ps : Multiset α)) ∧
    ((drainRemaining (buildPointGrid px py cell ps)).2 = [] ∧
      (drainRemaining (buildPointGrid px py cell ps)).1
        = gridElems (buildPointGrid px py cell ps)) := by
  set g := buildPointGrid px py cell ps with hg
  have hWF := gridWF_build px py cell ps
  have hbuild := gridElems_build px py cell ps
  have hmemiff : ∀ q : α, q ∈ gridElems g ↔ q ∈ ps := by
    intro q
    rw [← Multiset.mem_coe, ← hg] at *
    rw [hbuild, Multiset.mem_coe]
  refine ⟨?_, ?_, ?_, hbuild, rfl, rfl⟩
  · -- successful take: neighborhood membership, minimality, removal
    intro p g' htc
    rw [takeClosest_eq] at htc
    cases hf : (scanCands g ⌊x / cell⌋ ⌊y / cell⌋).foldl (pickStep px py x y) none with
    | none => rw [hf] at htc; simp at htc
    | some r =>
      obtain ⟨d, k, i, p0⟩ := r
      rw [hf] at htc
      simp only [Prod.mk.injEq, Option.some.injEq] at htc
      obtain ⟨rfl, rfl⟩ := htc
      obtain ⟨hmem, -, hall⟩ := foldl_pick_some_spec px py x y _ none _ hf
      rcases hmem with hmem | ⟨c, hc, hrc⟩
      · exact absurd hmem (by simp)
      · obtain ⟨hd, hc2⟩ : d = dist2 px py x y c.2.2 ∧ (k, i, p0) = c := by
          obtain ⟨h1, h2⟩ := Prod.mk.injEq .. ▸ hrc
          exact ⟨h1, h2⟩
        subst hc2
        obtain ⟨hknb, hwi⟩ := mem_scanCands.1 hc
        have hget : (gridGet g k)[i]? = some p0 := by
          have := (mem_withIdx_get hwi).2
          simpa using this
        have hpget : p0 ∈ gridGet g k := List.getElem?_mem hget
        have hmulti : (gridElems g : Multiset α)
            = p0 ::ₘ (gridElems (gridRemoveAt g k i) : Multiset α) :=
          gridElems_removeAt hWF.1 hget
        refine ⟨⟨k, hknb, hpget⟩, ?_, hmulti, ?_⟩
        · intro k' hk' q hq
          obtain ⟨j, hj⟩ := List.getElem?_of_mem hq
          have hcand : (k', j, q) ∈ scanCands g ⌊x / cell⌋ ⌊y / cell⌋ :=
            mem_scanCands.2 ⟨hk', by simpa using get_mem_withIdx (n := 0) hj⟩
          have := hall _ hcand
          rw [hd] at this
          exact this
        · intro hnd
          have hcnt : (gridElems g).count p0
              = (gridElems (gridRemoveAt g k i)).count p0 + 1 := by
            have hc' := congrArg (Multiset.count p0) hmulti
            simpa [Multiset.count_cons_self] using hc'
          have hle := List.nodup_iff_count_le_one.1 hnd p0
          have hzero : (gridElems (gridRemoveAt g k i)).count p0 = 0 := by omega
          exact List.count_eq_zero.1 hzero
  · -- none exactly when the neighborhood is empty
    rw [takeClosest_eq]
    cases hf : (scanCands g ⌊x / cell⌋ ⌊y / cell⌋).foldl (pickStep px py x y) none with
    | none =>
      have hnil := ((foldl_pick_eq_none px py x y _ none).1 hf).2
      exact iff_of_true rfl (scanCands_eq_nil.1 hnil)
    | some r =>
      obtain ⟨d, k, i, p0⟩ := r
      refine iff_of_false (by simp) ?_
      intro hall
      have : scanCands g ⌊x / cell⌋ ⌊y / cell⌋ = [] := scanCands_eq_nil.2 hall
      rw [this] at hf
      simp at hf
  · -- brute-force nearest under the locality hypothesis
    intro hloc hne
    obtain ⟨q0, hq0⟩ := List.exists_mem_of_ne_nil ps hne
    have hq0g : q0 ∈ gridGet g (cellOf cell (px q0) (py q0)) :=
      mem_elems_gridGet hWF.1 hWF.2 ((hmemiff q0).2 hq0)
    have hcands_ne : scanCands g ⌊x / cell⌋ ⌊y / cell⌋ ≠ [] := by
      intro hnil
      have := scanCands_eq_nil.1 hnil _ (hloc q0 hq0)
      rw [this] at hq0g
      simp at hq0g
    cases hf : (scanCands g ⌊x / cell⌋ ⌊y / cell⌋).foldl (pickStep px py x y) none with
    | none =>
      exact absurd ((foldl_pick_eq_none px py x y _ none).1 hf).2 hcands_ne
    | some r =>
      obtain ⟨d, k, i, p0⟩ := r
      obtain ⟨hmem, -, hall⟩ := foldl_pick_some_spec px py x y _ none _ hf
      rcases hmem with hmem | ⟨c, hc, hrc⟩
      · exact absurd hmem (by simp)
      · obtain ⟨hd, hc2⟩ : d = dist2 px py x y c.2.2 ∧ (k, i, p0) = c := by
          obtain ⟨h1, h2⟩ := Prod.mk.injEq .. ▸ hrc
          exact ⟨h1, h2⟩
        subst hc2
        obtain ⟨hknb, hwi⟩ := mem_scanCands.1 hc
        have hget : (gridGet g k)[i]? = some p0 := by
          have := (mem_withIdx_get hwi).2
          simpa using this
        have hp0ps : p0 ∈ ps :=
          (hmemiff p0).1 (mem_gridGet_mem_elems (List.getElem?_mem hget))
        refine ⟨p0, gridRemoveAt g k i, ?_, hp0ps, ?_⟩
        · rw [takeClosest_eq, hf]
        · intro q hq
          have hqg : q ∈ gridGet g (cellOf cell (px q) (py q)) :=
            mem_elems_gridGet hWF.1 hWF.2 ((hmemiff q).2 hq)
          obtain ⟨j, hj⟩ := List.getElem?_of_mem hqg
          have hcand : (cellOf cell (px q) (py q), j, q)
              ∈ scanCands g ⌊x / cell⌋ ⌊y / cell⌋ :=
            mem_scanCands.2 ⟨hloc q hq, by simpa using get_mem_withIdx (n := 0) hj⟩
          have := hall _ hcand
          rw [hd] at this
          exact this

/-- C2 witness: the brute-force-nearest clause applied to the concrete
one-particle set [(0,0)] with cell size 1 and query (0,0). -/
theorem c2_spatial_index_spec_witness :
    ∃ p g', takeClosest Prod.fst Prod.snd 1
        (buildPointGrid Prod.fst Prod.snd 1 [((0 : ℚ), (0 : ℚ))]) 0 0 = (some p, g') ∧
      p ∈ [((0 : ℚ), (0 : ℚ))] ∧
      ∀ q ∈ [((0 : ℚ), (0 : ℚ))],
        dist2 Prod.fst Prod.snd 0 0 p ≤ dist2 Prod.fst Prod.snd 0 0 q :=
  (c2_spatial_index_spec Prod.fst Prod.snd 1 [((0 : ℚ), (0 : ℚ))] 0 0).2.2.1
    (by
      intro q hq
      simp only [List.mem_singleton] at hq
      subst hq
      have h0 : ⌊(0 : ℚ) / 1⌋ = 0 := by norm_num
      simp only [cellOf, h0]
      decide)
    (by simp)

/-! ### Lemmas for the transition engine (C7) -/

/-- The particle handed out by the pool takes the start position the options
carry (both the pooled-`reset` and the fresh-construction paths). -/
theorem getPointFromPool_xy (col : String) (now rx ry : ℚ) (fresh : ℕ)
    (o : PointOption) (pool : List Point) :
    ((getPointFromPool col now rx ry fresh o pool).1.x = o.x.getD rx) ∧
    ((getPointFromPool col now rx ry fresh o pool).1.y = o.y.getD ry) := by
  cases h : pool.getLast? <;> simp [getPointFromPool, h, mkPoint, Point.reset]

/-- Without a previous-particle grid, the generation builder draws every
start position from the random stream — two draws per sample, in order —
regardless of the pool contents, and leaves no grid and an advanced random
counter. -/
theorem genPoints_none_spec (col : String) (now : ℚ) (o : EngineOpts) (E : Env)
    (readPixel : ℚ → ℚ → Option String) (cell : ℚ) (rnd : ℕ → ℚ) :
    ∀ (samples : List Sample) (rc : ℕ) (pool : List Point) (fresh : ℕ),
      ((genPoints col now o E readPixel cell rnd samples none rc pool fresh).1.map
          (fun p => (p.x, p.y))
        = (List.range samples.length).map
            (fun j => (rnd (rc + 2 * j), rnd (rc + 2 * j + 1)))) ∧
      (genPoints col now o E readPixel cell rnd samples none rc pool fresh).2.1 = none ∧
      (genPoints col now o E readPixel cell rnd samples none rc pool fresh).2.2.1
        = rc + 2 * samples.length := by
  intro samples
  induction samples with
  | nil => intro rc pool fresh; simp [genPoints]
  | cons s t ih =>
    intro rc pool fresh
    obtain ⟨ihm, ihg, ihc⟩ := ih (rc + 2) (getPointFromPool col now 0 0 fresh
      { size := o.pointSize, shape := o.pointShape, jitter := o.jitter,
        w := s.tx, h := s.ty, x := some (rnd rc), y := some (rnd (rc + 1)),
        fillStyle := some s.fill, initialFillStyle := some col,
        easing := some o.easing, animationDuration := some o.duration } pool).2
      (if pool.isEmpty then fresh + 1 else fresh)
    have hxy := getPointFromPool_xy col now 0 0 fresh
      { size := o.pointSize, shape := o.pointShape, jitter := o.jitter,
        w := s.tx, h := s.ty, x := some (rnd rc), y := some (rnd (rc + 1)),
        fillStyle := some s.fill, initialFillStyle := some col,
        easing := some o.easing, animationDuration := some o.duration } pool
    refine ⟨?_, ?_, ?_⟩
    · simp only [genPoints, List.map_cons, List.length_cons]
      rw [List.range_succ_eq_map, List.map_cons, List.map_map]
      refine List.cons_eq_cons.mpr ⟨?_, ?_⟩
      · rw [hxy.1, hxy.2]
        simp
      · rw [ihm]
        apply List.map_congr_left
        intro j _
        simp only [Function.comp_apply]
        have e1 : rc + 2 * (j + 1) = rc + 2 + 2 * j := by ring
        rw [e1]
    · simpa [genPoints] using ihg
    · simp only [genPoints]
      rw [ihc]
      simp only [List.length_cons]
      ring



theorem runModel_zero (col : String) (now : ℚ) (o : EngineOpts) (E : Env)
    (readPixel : ℚ → ℚ → Option String) (cell : ℚ) (rnd : ℕ → ℚ)
    (samplesOf : ℕ → List Sample) (s : EngState) :
    runModel col now o E readPixel cell rnd samplesOf 0 s = s := rfl

theorem runModel_succ (col : String) (now : ℚ) (o : EngineOpts) (E : Env)
    (readPixel : ℚ → ℚ → Option String) (cell : ℚ) (rnd : ℕ → ℚ)
    (samplesOf : ℕ → List Sample) (n : ℕ) (s : EngState) :
    runModel col now o E readPixel cell rnd samplesOf (n + 1) s
      = if s.doneFired then s
        else runModel col now o E readPixel cell rnd samplesOf n
          (runOnce col now o E readPixel cell rnd samplesOf s) := rfl

/-- One non-infinite, non-continuity `run` on a state with a pending image:
pop the last pending image, recycle the previous generation into the pool,
and build the new generation from the samples with randomized starts. -/
theorem runOnce_step (col : String) (now : ℚ) (o : EngineOpts) (E : Env)
    (readPixel : ℚ → ℚ → Option String) (cell : ℚ) (rnd : ℕ → ℚ)
    (samplesOf : ℕ → List Sample)
    (hinf : o.infinity = false) (hupd : o.isUpdateFromLastPosition = false)
    (pend : List ℕ) (img : ℕ) (hist : List ℕ) (parr pool : List Point)
    (rc fresh : ℕ) (disp : List ℕ) (gens : List (List Point)) :
    runOnce col now o E readPixel cell rnd samplesOf
      ⟨pend ++ [img], hist, parr, pool, rc, fresh, disp, gens, false⟩
      = ⟨pend, hist ++ [img],
         (genPoints col now o E readPixel cell rnd (samplesOf img) none rc
            (recyclePoints pool parr) fresh).1,
         (genPoints col now o E readPixel cell rnd (samplesOf img) none rc
            (recyclePoints pool parr) fresh).2.2.2.1,
         (genPoints col now o E readPixel cell rnd (samplesOf img) none rc
            (recyclePoints pool parr) fresh).2.2.1,
         (genPoints col now o E readPixel cell rnd (samplesOf img) none rc
            (recyclePoints pool parr) fresh).2.2.2.2,
         disp ++ [img],
         gens ++ [(genPoints col now o E readPixel cell rnd (samplesOf img) none rc
            (recyclePoints pool parr) fresh).1],
         false⟩ := by
  simp [runOnce, hinf, hupd, runGen, getPointModel, List.getLast?_concat,
    List.dropLast_concat]

/-- One non-infinite `run` on an exhausted queue: stop and fire `onDone`. -/
theorem runOnce_done (col : String) (now : ℚ) (o : EngineOpts) (E : Env)
    (readPixel : ℚ → ℚ → Option String) (cell : ℚ) (rnd : ℕ → ℚ)
    (samplesOf : ℕ → List Sample) (hinf : o.infinity = false)
    (hist : List ℕ) (parr pool : List Point) (rc fresh : ℕ) (disp : List ℕ)
    (gens : List (List Point)) :
    runOnce col now o E readPixel cell rnd samplesOf
      ⟨[], hist, parr, pool, rc, fresh, disp, gens, false⟩
      = ⟨[], hist, parr, pool, rc, fresh, disp, gens, true⟩ := by
  simp [runOnce, hinf]

/-- C7 (amended): with 2 supplied images, `infinity = false` and
`isUpdateFromLastPosition = false`, the engine pops pending images off the
END of the queue (JS `Array.pop`), so generation 1 is built for the SECOND
(last) supplied image and generation 2 for the first; each generation is
built with an empty previous-particle list, every particle start position
being drawn from the random stream (two draws per sample, independent of
any previous generation or pool content); `onDone` fires exactly on the
third `run`, after both generations have completed and the queue is
exhausted. -/
theorem c7_engine_sequence (col : String) (now : ℚ) (o : EngineOpts) (E : Env)
    (readPixel : ℚ → ℚ → Option String) (cell : ℚ) (rnd : ℕ → ℚ)
    (samplesOf : ℕ → List Sample) (a b : ℕ) (pool0 : List Point)
    (rc0 fresh0 : ℕ)
    (hinf : o.infinity = false) (hupd : o.isUpdateFromLastPosition = false) :
    ((runModel col now o E readPixel cell rnd samplesOf 1
        (initEngState [a, b] pool0 rc0 fresh0)).displayed = [b] ∧
      (runModel col now o E readPixel cell rnd samplesOf 1
        (initEngState [a, b] pool0 rc0 fresh0)).doneFired = false) ∧
    ((runModel col now o E readPixel cell rnd samplesOf 2
        (initEngState [a, b] pool0 rc0 fresh0)).displayed = [b, a] ∧
      (runModel col now o E readPixel cell rnd samplesOf 2
        (initEngState [a, b] pool0 rc0 fresh0)).doneFired = false) ∧
    ((runModel col now o E readPixel cell rnd samplesOf 3
        (initEngState [a, b] pool0 rc0 fresh0)).displayed = [b, a] ∧
      (runModel col now o E readPixel cell rnd samplesOf 3
        (initEngState [a, b] pool0 rc0 fresh0)).doneFired = true) ∧
    ((runModel col now o E readPixel cell rnd samplesOf 3
        (initEngState [a, b] pool0 rc0 fresh0)).gens.map
          (fun gen => gen.map (fun p => (p.x, p.y)))
      = [(List.range (samplesOf b).length).map
           (fun j => (rnd (rc0 + 2 * j), rnd (rc0 + 2 * j + 1))),
         (List.range (samplesOf a).length).map
           (fun j => (rnd (rc0 + 2 * (samplesOf b).length + 2 * j),
                      rnd (rc0 + 2 * (samplesOf b).length + 2 * j + 1)))]) := by
  have hS0 : initEngState [a, b] pool0 rc0 fresh0
      = ⟨[a, b], [], [], pool0, rc0, fresh0, [], [], false⟩ := rfl
  have e1 := runOnce_step col now o E readPixel cell rnd samplesOf hinf hupd
    [a] b [] [] pool0 rc0 fresh0 [] []
  simp only [List.nil_append, List.cons_append] at e1
  have e2 := runOnce_step col now o E readPixel cell rnd samplesOf hinf hupd
    [] a [b]
    (genPoints col now o E readPixel cell rnd (samplesOf b) none rc0
      (recyclePoints pool0 []) fresh0).1
    (genPoints col now o E readPixel cell rnd (samplesOf b) none rc0
      (recyclePoints pool0 []) fresh0).2.2.2.1
    (genPoints col now o E readPixel cell rnd (samplesOf b) none rc0
      (recyclePoints pool0 []) fresh0).2.2.1
    (genPoints col now o E readPixel cell rnd (samplesOf b) none rc0
      (recyclePoints pool0 []) fresh0).2.2.2.2
    [b]
    [(genPoints col now o E readPixel cell rnd (samplesOf b) none rc0
      (recyclePoints pool0 []) fresh0).1]
  simp only [List.nil_append, List.cons_append] at e2
  have e3 := runOnce_done col now o E readPixel cell rnd samplesOf hinf
    [b, a]
    (genPoints col now o E readPixel cell rnd (samplesOf a) none
      (genPoints col now o E readPixel cell rnd (samplesOf b) none rc0
        (recyclePoints pool0 []) fresh0).2.2.1
      (recyclePoints
        (genPoints col now o E readPixel cell rnd (samplesOf b) none rc0
          (recyclePoints pool0 []) fresh0).2.2.2.1
        (genPoints col now o E readPixel cell rnd (samplesOf b) none rc0
          (recyclePoints pool0 []) fresh0).1)
      (genPoints col now o E readPixel cell rnd (samplesOf b) none rc0
        (recyclePoints pool0 []) fresh0).2.2.2.2).1
    (genPoints col now o E readPixel cell rnd (samplesOf a) none
      (genPoints col now o E readPixel cell rnd (samplesOf b) none rc0
        (recyclePoints pool0 []) fresh0).2.2.1
      (recyclePoints
        (genPoints col now o E readPixel cell rnd (samplesOf b) none rc0
          (recyclePoints pool0 []) fresh0).2.2.2.1
        (genPoints col now o E readPixel cell rnd (samplesOf b) none rc0
          (recyclePoints pool0 []) fresh0).1)
      (genPoints col now o E readPixel cell rnd (samplesOf b) none rc0
        (recyclePoints pool0 []) fresh0).2.2.2.2).2.2.2.1
    (genPoints col now o E readPixel cell rnd (samplesOf a) none
      (genPoints col now o E readPixel cell rnd (samplesOf b) none rc0
        (recyclePoints pool0 []) fresh0).2.2.1
      (recyclePoints
        (genPoints col now o E readPixel cell rnd (samplesOf b) none rc0
          (recyclePoints pool0 []) fresh0).2.2.2.1
        (genPoints col now o E readPixel cell rnd (samplesOf b) none rc0
          (recyclePoints pool0 []) fresh0).1)
      (genPoints col now o E readPixel cell rnd (samplesOf b) none rc0
        (recyclePoints pool0 []) fresh0).2.2.2.2).2.2.1
    (genPoints col now o E readPixel cell rnd (samplesOf a) none
      (genPoints col now o E readPixel cell rnd (samplesOf b) none rc0
        (recyclePoints pool0 []) fresh0).2.2.1
      (recyclePoints
        (genPoints col now o E readPixel cell rnd (samplesOf b) none rc0
          (recyclePoints pool0 []) fresh0).2.2.2.1
        (genPoints col now o E readPixel cell rnd (samplesOf b) none rc0
          (recyclePoints pool0 []) fresh0).1)
      (genPoints col now o E readPixel cell rnd (samplesOf b) none rc0
        (recyclePoints pool0 []) fresh0).2.2.2.2).2.2.2.2
    [b, a]
    [(genPoints col now o E readPixel cell rnd (samplesOf b) none rc0
        (recyclePoints pool0 []) fresh0).1,
     (genPoints col now o E readPixel cell rnd (samplesOf a) none
      (genPoints col now o E readPixel cell rnd (samplesOf b) none rc0
        (recyclePoints pool0 []) fresh0).2.2.1
      (recyclePoints
        (genPoints col now o E readPixel cell rnd (samplesOf b) none rc0
          (recyclePoints pool0 []) fresh0).2.2.2.1
        (genPoints col now o E readPixel cell rnd (samplesOf b) none rc0
          (recyclePoints pool0 []) fresh0).1)
      (genPoints col now o E readPixel cell rnd (samplesOf b) none rc0
        (recyclePoints pool0 []) fresh0).2.2.2.2).1]
  obtain ⟨hb1, -, hb2⟩ := genPoints_none_spec col now o E readPixel cell rnd
    (samplesOf b) rc0 (recyclePoints pool0 []) fresh0
  obtain ⟨ha1, -, -⟩ := genPoints_none_spec col now o E readPixel cell rnd
    (samplesOf a)
    ((genPoints col now o E readPixel cell rnd (samplesOf b) none rc0
      (recyclePoints pool0 []) fresh0).2.2.1)
    (recyclePoints
      (genPoints col now o E readPixel cell rnd (samplesOf b) none rc0
        (recyclePoints pool0 []) fresh0).2.2.2.1
      (genPoints col now o E readPixel cell rnd (samplesOf b) none rc0
        (recyclePoints pool0 []) fresh0).1)
    ((genPoints col now o E readPixel cell rnd (samplesOf b) none rc0
      (recyclePoints pool0 []) fresh0).2.2.2.2)
  refine ⟨⟨?_, ?_⟩, ⟨?_, ?_⟩, ⟨?_, ?_⟩, ?_⟩
  · show (runModel col now o E readPixel cell rnd samplesOf (0 + 1)
        (initEngState [a, b] pool0 rc0 fresh0)).displayed = [b]
    rw [runModel_succ, if_neg (by simp [initEngState]), runModel_zero, hS0, e1]
  · show (runModel col now o E readPixel cell rnd samplesOf (0 + 1)
        (initEngState [a, b] pool0 rc0 fresh0)).doneFired = false
    rw [runModel_succ, if_neg (by simp [initEngState]), runModel_zero, hS0, e1]
  · show (runModel col now o E readPixel cell rnd samplesOf (1 + 1)
        (initEngState [a, b] pool0 rc0 fresh0)).displayed = [b, a]
    rw [runModel_succ, if_neg (by simp [initEngState]), hS0, e1]
    show (runModel col now o E readPixel cell rnd samplesOf (0 + 1) _).displayed = _
    rw [runModel_succ, if_neg (by simp), runModel_zero, e2]
  · show (runModel col now o E readPixel cell rnd samplesOf (1 + 1)
        (initEngState [a, b] pool0 rc0 fresh0)).doneFired = false
    rw [runModel_succ, if_neg (by simp [initEngState]), hS0, e1]
    show (runModel col now o E readPixel cell rnd samplesOf (0 + 1) _).doneFired = _
    rw [runModel_succ, if_neg (by simp), runModel_zero, e2]
  · show (runModel col now o E readPixel cell rnd samplesOf (2 + 1)
        (initEngState [a, b] pool0 rc0 fresh0)).displayed = [b, a]
    rw [runModel_succ, if_neg (by simp [initEngState]), hS0, e1]
    show (runModel col now o E readPixel cell rnd samplesOf (1 + 1) _).displayed = _
    rw [runModel_succ, if_neg (by simp), e2]
    show (runModel col now o E readPixel cell rnd samplesOf (0 + 1) _).displayed = _
    rw [runModel_succ, if_neg (by simp), runModel_zero, e3]
  · show (runModel col now o E readPixel cell rnd samplesOf (2 + 1)
        (initEngState [a, b] pool0 rc0 fresh0)).doneFired = true
    rw [runModel_succ, if_neg (by simp [initEngState]), hS0, e1]
    show (runModel col now o E readPixel cell rnd samplesOf (1 + 1) _).doneFired = _
    rw [runModel_succ, if_neg (by simp), e2]
    show (runModel col now o E readPixel cell rnd samplesOf (0 + 1) _).doneFired = _
    rw [runModel_succ, if_neg (by simp), runModel_zero, e3]
  · show (runModel col now o E readPixel cell rnd samplesOf (2 + 1)
        (initEngState [a, b] pool0 rc0 fresh0)).gens.map
          (fun gen => gen.map (fun p => (p.x, p.y))) = _
    rw [runModel_succ, if_neg (by simp [initEngState]), hS0, e1]
    show (runModel col now o E readPixel cell rnd samplesOf (1 + 1) _).gens.map
          (fun gen => gen.map (fun p => (p.x, p.y))) = _
    rw [runModel_succ, if_neg (by simp), e2]
    show (runModel col now o E readPixel cell rnd samplesOf (0 + 1) _).gens.map
          (fun gen => gen.map (fun p => (p.x, p.y))) = _
    rw [runModel_succ, if_neg (by simp), runModel_zero, e3]
    simp only [List.map_cons, List.map_nil]
    rw [hb1, ha1, hb2]





/-- C7 counterexample: with supplied images [0, 1] (image 0 first in the
list), the engine's generation trace is [1, 0] — generation 1 is built for
image 1, the LAST image of the list (`imageDatas.pop()` takes the end), not
for the first image as the claim states. -/
theorem c7_engine_sequence_counterexample :
    (runModel "#abc" 0 oEx zeroEnv (fun _ _ => none) 8 (fun _ => 0)
      (fun _ => [sampleEx]) 3 (initEngState [0, 1] [] 0 0)).displayed = [1, 0] ∧
    ([1, 0] : List ℕ) ≠ [0, 1] := by
  constructor
  · rfl
  · decide

/-- C7 witness: the sequencing law applied at the concrete instance —
`onDone` has fired after the third run. -/
theorem c7_engine_sequence_witness :
    (runModel "#abc" 0 oEx zeroEnv (fun _ _ => none) 8 (fun _ => 0)
      (fun _ => [sampleEx]) 3 (initEngState [0, 1] [] 0 0)).doneFired = true :=
  (c7_engine_sequence "#abc" 0 oEx zeroEnv (fun _ _ => none) 8 (fun _ => 0)
    (fun _ => [sampleEx]) 0 1 [] 0 0 rfl rfl).2.2.1.2

end AnimateImage
